import Mathlib

/-!
Verification of the openstack-lightspeed operator controller logic.

This file shallowly embeds the controller's pure logic and its
cluster-facing step functions (version resolution, OLSConfig patching,
readiness checking, operator install/uninstall, deletion reconciliation)
as executable Lean definitions, and proves properties about them.

Strings are modelled by Lean `String`/`List Char`; Go's dynamic
`map[string]interface{}` objects are modelled by a JSON-like tree with
association lists for objects; cluster state is passed explicitly and
client calls are modelled as pure state transformations.
-/

namespace OLS

/-! ## Version resolver (ocp_version.go) -/

def OCPVersion416 : String := "4.16"

def OCPVersion418 : String := "4.18"

def OCPVersionLatest : String := "latest"

/-- Supported OCP versions in the RAG database. -/
def SupportedOCPVersions : List String := [OCPVersion416, OCPVersion418, OCPVersionLatest]

/-- IsSupportedOCPVersion checks if the version is explicitly supported
(slices.Contains on the allow-list). -/
def IsSupportedOCPVersion (version : String) : Bool :=
  SupportedOCPVersions.contains version

/-- ResolveOCPVersion determines the OCP version to use for RAG configuration.
Success carries (version, isFallback); Go's error return is modelled by
`Except.error`. -/
def ResolveOCPVersion (detectedVersion overrideVersion : String) (enableOCPRAG : Bool) :
    Except String (String × Bool) :=
  if !enableOCPRAG then .ok ("", false)
  else if overrideVersion ≠ "" then .ok (overrideVersion, false)
  else if detectedVersion = "" then .error "no OCP version detected"
  else if IsSupportedOCPVersion detectedVersion then .ok (detectedVersion, false)
  else .ok (OCPVersionLatest, true)

/-! ## ParseMajorMinorVersion

The Go function matches the regular expression `^(\d+\.\d+)` against the
input and returns the first capture group.  Since `\d+` cannot match `.`,
the regex engine's match is exactly: the maximal leading digit run, a dot,
then the maximal following digit run.  We embed that directly. -/

/-- ParseMajorMinorVersion extracts the major.minor version from a full
version string, erroring when no prefix of the input matches the regular
expression for digits, a dot, then digits. -/
def ParseMajorMinorVersion (fullVersion : String) : Except String String :=
  match fullVersion.toList.takeWhile Char.isDigit, fullVersion.toList.dropWhile Char.isDigit with
  | d1h :: d1t, x :: r2 =>
    if x = '.' then
      match r2.takeWhile Char.isDigit with
      | [] => .error ("invalid version format: " ++ fullVersion)
      | d2h :: d2t => .ok (String.mk ((d1h :: d1t) ++ '.' :: d2h :: d2t))
    else .error ("invalid version format: " ++ fullVersion)
  | _, _ => .error ("invalid version format: " ++ fullVersion)

/-- Spec-side predicate (from the spec's regular expression `^\d+\.\d+`):
the string decomposes as a nonempty digit run `d1`, a dot, a nonempty
digit run `d2` and a remainder. -/
def MatchesMajorMinorAt (s : String) (d1 d2 rest : List Char) : Prop :=
  d1 ≠ [] ∧ d2 ≠ [] ∧ (∀ c ∈ d1, c.isDigit) ∧ (∀ c ∈ d2, c.isDigit) ∧
    s.toList = d1 ++ '.' :: (d2 ++ rest)

/-! Small takeWhile/dropWhile helpers. -/

theorem takeWhile_append_cons_of {α : Type} (p : α → Bool) (l1 l2 : List α) (x : α)
    (h1 : ∀ c ∈ l1, p c) (hx : p x = false) : (l1 ++ x :: l2).takeWhile p = l1 := by
  induction l1 with
  | nil => simp [List.takeWhile, hx]
  | cons a t ih =>
    have ha : p a = true := h1 a (by simp)
    simp only [List.cons_append, List.takeWhile, ha]
    exact congrArg (List.cons a) (ih (fun c hc => h1 c (by simp [hc])))

theorem dropWhile_append_cons_of {α : Type} (p : α → Bool) (l1 l2 : List α) (x : α)
    (h1 : ∀ c ∈ l1, p c) (hx : p x = false) : (l1 ++ x :: l2).dropWhile p = x :: l2 := by
  induction l1 with
  | nil => simp [List.dropWhile, hx]
  | cons a t ih =>
    have ha : p a = true := h1 a (by simp)
    simp only [List.cons_append, List.dropWhile, ha]
    exact ih (fun c hc => h1 c (by simp [hc]))

theorem takeWhile_eq_self_of {α : Type} (p : α → Bool) (l : List α)
    (h : ∀ c ∈ l, p c) : l.takeWhile p = l := by
  induction l with
  | nil => rfl
  | cons a t ih =>
    have ha : p a = true := h a (by simp)
    simp only [List.takeWhile, ha]
    exact congrArg (List.cons a) (ih (fun c hc => h c (by simp [hc])))

theorem pred_of_mem_takeWhile {α : Type} (p : α → Bool) (l : List α) (c : α)
    (h : c ∈ l.takeWhile p) : p c = true := by
  induction l with
  | nil => simp [List.takeWhile] at h
  | cons a t ih =>
    cases ha : p a with
    | true =>
      simp only [List.takeWhile, ha] at h
      rcases List.mem_cons.mp h with rfl | hm
      · exact ha
      · exact ih hm
    | false =>
      simp only [List.takeWhile, ha] at h
      exact absurd h (List.not_mem_nil c)

theorem head_of_dropWhile_not {α : Type} (p : α → Bool) (l : List α) (c : α) (t : List α)
    (h : l.dropWhile p = c :: t) : p c = false := by
  induction l with
  | nil => simp [List.dropWhile] at h
  | cons a s ih =>
    cases ha : p a with
    | true =>
      simp only [List.dropWhile, ha] at h
      exact ih h
    | false =>
      simp only [List.dropWhile, ha] at h
      cases h
      exact ha

/-! ## Pod-log environment variable extraction (funcs.go / part_002)

`extractEnvFromPodLogs` splits the logs on newlines, splits each line with
`strings.Split(line, "=")` (on EVERY occurrence of '='), skips lines that
do not produce exactly two parts, and returns the second part of the first
line whose first part equals the requested variable name. -/

/-- Model of Go `strings.Split` with a single-character separator. -/
def splitOnCharList (sep : Char) : List Char → List (List Char)
  | [] => [[]]
  | c :: rest =>
    match splitOnCharList sep rest with
    | [] => [[]]
    | hd :: tl => if c = sep then [] :: hd :: tl else (c :: hd) :: tl

/-- The per-line scanning loop of extractEnvFromPodLogs. -/
def findEnvInLines (envVarName : List Char) : List (List Char) → Except String (List Char)
  | [] => .error ("env var not discovered: " ++ String.mk envVarName)
  | line :: rest =>
    match splitOnCharList '=' line with
    | [p0, p1] =>
      if p0 = envVarName then .ok p1 else findEnvInLines envVarName rest
    | _ => findEnvInLines envVarName rest

/-- extractEnvFromPodLogs, with the log contents already streamed into a
string: split on line breaks, scan each line. -/
def extractEnvFromPodLogs (logs envVarName : String) : Except String String :=
  match findEnvInLines envVarName.toList (splitOnCharList '\n' logs.toList) with
  | .ok v => .ok (String.mk v)
  | .error e => .error e

theorem splitOnCharList_ne_nil (sep : Char) (l : List Char) : splitOnCharList sep l ≠ [] := by
  cases l with
  | nil => simp [splitOnCharList]
  | cons c rest =>
    simp only [splitOnCharList]
    cases h : splitOnCharList sep rest with
    | nil => simp
    | cons hd tl =>
      by_cases hc : c = sep <;> simp [hc]

theorem splitOnCharList_of_not_mem (sep : Char) (l : List Char) (h : sep ∉ l) :
    splitOnCharList sep l = [l] := by
  induction l with
  | nil => rfl
  | cons c rest ih =>
    have hc : c ≠ sep := fun hcs => h (by simp [hcs])
    have hrest : sep ∉ rest := fun hm => h (by simp [hm])
    simp only [splitOnCharList, ih hrest]
    simp [hc]

theorem splitOnCharList_append_sep (sep : Char) (a b : List Char) (ha : sep ∉ a) :
    splitOnCharList sep (a ++ sep :: b) = a :: splitOnCharList sep b := by
  induction a with
  | nil =>
    simp only [List.nil_append, splitOnCharList]
    cases hsp : splitOnCharList sep b with
    | nil => exact absurd hsp (splitOnCharList_ne_nil sep b)
    | cons hd tl => simp
  | cons c rest ih =>
    have hc : c ≠ sep := fun hcs => ha (by simp [hcs])
    have hrest : sep ∉ rest := fun hm => ha (by simp [hm])
    simp only [List.cons_append, splitOnCharList, ih hrest]
    cases hsp : splitOnCharList sep (rest ++ sep :: b) with
    | nil => exact absurd hsp (splitOnCharList_ne_nil sep _)
    | cons hd tl =>
      rw [ih hrest] at hsp
      cases hsp
      simp [hc]

/-! ## Subscription naming (ols_install.go) -/

def OLSOperatorName : String := "lightspeed-operator"

/-- The OpenStackLightspeed custom resource, with the fields the embedded
functions inspect.  `statusConditionsNil` records whether
`instance.Status.Conditions` is the nil slice. -/
structure OpenStackLightspeed where
  uid : String
  ns : String
  llmEndpoint : String
  llmEndpointType : String
  llmCredentials : String
  modelName : String
  maxTokensForResponse : Int
  ragImage : String
  tlsCACertBundle : String
  catalogSourceName : String
  catalogSourceNamespace : String
  statusConditionsNil : Bool
deriving DecidableEq

/-- GetOLSSubscriptionName appends the first 5 characters of the instance
UID to the operator name.  The Go slice expression panics when the UID is
shorter than 5; the panic is modelled as `none`. -/
def GetOLSSubscriptionName (inst : OpenStackLightspeed) : Option String :=
  if 5 ≤ inst.uid.toList.length then
    some (OLSOperatorName ++ "-" ++ String.mk (inst.uid.toList.take 5))
  else none

/-! ## Claim C1 -/

/-- C1: ResolveOCPVersion returns ("", false) with no error when disabled;
the override verbatim with no error when enabled and the override is
non-empty; an error when enabled with both inputs empty; the detected
version when enabled, no override, and the detected version is in the
allow-list; and ("latest", fallback) when enabled, no override, and the
non-empty detected version is not in the allow-list. -/
theorem resolveOCPVersion_spec (detected override : String) (enabled : Bool) :
    (enabled = false → ResolveOCPVersion detected override enabled = .ok ("", false)) ∧
    (enabled = true → override ≠ "" →
      ResolveOCPVersion detected override enabled = .ok (override, false)) ∧
    (enabled = true → override = "" → detected = "" →
      ResolveOCPVersion detected override enabled = .error "no OCP version detected") ∧
    (enabled = true → override = "" → detected ∈ SupportedOCPVersions →
      ResolveOCPVersion detected override enabled = .ok (detected, false)) ∧
    (enabled = true → override = "" → detected ≠ "" → detected ∉ SupportedOCPVersions →
      ResolveOCPVersion detected override enabled = .ok (OCPVersionLatest, true)) := by
  refine ⟨?_, ?_, ?_, ?_, ?_⟩
  · rintro rfl; rfl
  · rintro rfl hov
    simp [ResolveOCPVersion, hov]
  · rintro rfl rfl rfl; rfl
  · rintro rfl rfl hmem
    have hsup : IsSupportedOCPVersion detected = true := by
      simp only [IsSupportedOCPVersion, List.contains, List.elem_eq_mem]
      exact decide_eq_true hmem
    by_cases hdet : detected = ""
    · subst hdet
      exact absurd hmem (by decide)
    · simp [ResolveOCPVersion, hdet, hsup]
  · rintro rfl rfl hne hnm
    have hsup : IsSupportedOCPVersion detected = false := by
      simp only [IsSupportedOCPVersion, List.contains, List.elem_eq_mem]
      exact decide_eq_false hnm
    simp [ResolveOCPVersion, hne, hsup]

/-- C1 witness: the spec's own example, an unsupported detected version
falling back to "latest". -/
theorem resolveOCPVersion_spec_witness :
    ResolveOCPVersion "4.17" "" true = .ok (OCPVersionLatest, true) :=
  (resolveOCPVersion_spec "4.17" "" true).2.2.2.2 rfl rfl (by decide) (by decide)

/-! ## Claim C8 -/

/-- C8: for every string with a prefix matching the regular expression for
digits, dot, digits (with the digit runs maximal, as the regex engine
produces them — the remainder does not start with a digit),
ParseMajorMinorVersion returns exactly that major.minor prefix without
error; for every string with no such prefix it returns an error; and
conversely every successful result is exactly the maximal matched prefix
of such a decomposition. -/
theorem parseMajorMinorVersion_spec (s : String) :
    (∀ d1 d2 rest, MatchesMajorMinorAt s d1 d2 rest →
        (∀ c ∈ rest.take 1, c.isDigit = false) →
        ParseMajorMinorVersion s = .ok (String.mk (d1 ++ '.' :: d2))) ∧
    ((¬ ∃ d1 d2 rest, MatchesMajorMinorAt s d1 d2 rest) →
        ParseMajorMinorVersion s = .error ("invalid version format: " ++ s)) ∧
    (∀ v, ParseMajorMinorVersion s = .ok v →
        ∃ d1 d2 rest, MatchesMajorMinorAt s d1 d2 rest ∧
          (∀ c ∈ rest.take 1, c.isDigit = false) ∧ v = String.mk (d1 ++ '.' :: d2)) := by
  refine ⟨?_, ?_, ?_⟩
  · rintro d1 d2 rest ⟨hd1, hd2, hdig1, hdig2, hs⟩ hrest
    have hdot : Char.isDigit '.' = false := by decide
    obtain ⟨c1, t1, rfl⟩ := List.exists_cons_of_ne_nil hd1
    obtain ⟨c2, t2, rfl⟩ := List.exists_cons_of_ne_nil hd2
    have htw : List.takeWhile Char.isDigit s.data = c1 :: t1 := by
      show s.toList.takeWhile Char.isDigit = c1 :: t1
      rw [hs]; exact takeWhile_append_cons_of _ _ _ _ hdig1 hdot
    have hdw : List.dropWhile Char.isDigit s.data = '.' :: ((c2 :: t2) ++ rest) := by
      show s.toList.dropWhile Char.isDigit = '.' :: ((c2 :: t2) ++ rest)
      rw [hs]; exact dropWhile_append_cons_of _ _ _ _ hdig1 hdot
    have htw2 : List.takeWhile Char.isDigit (c2 :: (t2 ++ rest)) = c2 :: t2 := by
      show ((c2 :: t2) ++ rest).takeWhile Char.isDigit = c2 :: t2
      cases rest with
      | nil => simpa using takeWhile_eq_self_of _ (c2 :: t2) hdig2
      | cons r rs =>
        exact takeWhile_append_cons_of _ _ _ _ hdig2 (hrest r (by simp))
    simp [ParseMajorMinorVersion, htw, hdw, htw2]
  · intro hno
    cases htw : List.takeWhile Char.isDigit s.data with
    | nil => simp [ParseMajorMinorVersion, htw]
    | cons c1 t1 =>
      cases hdw : List.dropWhile Char.isDigit s.data with
      | nil => simp [ParseMajorMinorVersion, htw, hdw]
      | cons x r2 =>
        by_cases hx : x = '.'
        · subst hx
          cases htw2 : r2.takeWhile Char.isDigit with
          | nil => simp [ParseMajorMinorVersion, htw, hdw, htw2]
          | cons c2 t2 =>
            exfalso
            apply hno
            refine ⟨c1 :: t1, c2 :: t2, r2.dropWhile Char.isDigit, by simp, by simp, ?_, ?_, ?_⟩
            · intro c hc
              exact pred_of_mem_takeWhile Char.isDigit s.data c (htw ▸ hc)
            · intro c hc
              exact pred_of_mem_takeWhile Char.isDigit r2 c (htw2 ▸ hc)
            · have h1 := (List.takeWhile_append_dropWhile (p := Char.isDigit) (l := s.data)).symm
              rw [htw, hdw] at h1
              have h2 := (List.takeWhile_append_dropWhile (p := Char.isDigit) (l := r2)).symm
              rw [htw2] at h2
              show s.data = _
              rw [h1]
              conv_rhs => rw [← h2]
        · simp [ParseMajorMinorVersion, htw, hdw, hx]
  · intro v hv
    cases htw : List.takeWhile Char.isDigit s.data with
    | nil =>
      have herr : ParseMajorMinorVersion s = .error ("invalid version format: " ++ s) := by
        simp [ParseMajorMinorVersion, htw]
      rw [herr] at hv
      exact Except.noConfusion hv
    | cons c1 t1 =>
      cases hdw : List.dropWhile Char.isDigit s.data with
      | nil =>
        have herr : ParseMajorMinorVersion s = .error ("invalid version format: " ++ s) := by
          simp [ParseMajorMinorVersion, htw, hdw]
        rw [herr] at hv
        exact Except.noConfusion hv
      | cons x r2 =>
        by_cases hx : x = '.'
        · subst hx
          cases htw2 : r2.takeWhile Char.isDigit with
          | nil =>
            have herr : ParseMajorMinorVersion s =
                .error ("invalid version format: " ++ s) := by
              simp [ParseMajorMinorVersion, htw, hdw, htw2]
            rw [herr] at hv
            exact Except.noConfusion hv
          | cons c2 t2 =>
            have hok : ParseMajorMinorVersion s =
                .ok (String.mk ((c1 :: t1) ++ '.' :: c2 :: t2)) := by
              simp [ParseMajorMinorVersion, htw, hdw, htw2]
            rw [hok] at hv
            have hveq : v = String.mk ((c1 :: t1) ++ '.' :: c2 :: t2) :=
              (Except.ok.inj hv).symm
            refine ⟨c1 :: t1, c2 :: t2, r2.dropWhile Char.isDigit,
              ⟨by simp, by simp, ?_, ?_, ?_⟩, ?_, hveq⟩
            · intro c hc
              exact pred_of_mem_takeWhile Char.isDigit s.data c (htw ▸ hc)
            · intro c hc
              exact pred_of_mem_takeWhile Char.isDigit r2 c (htw2 ▸ hc)
            · have h1 := (List.takeWhile_append_dropWhile (p := Char.isDigit) (l := s.data)).symm
              rw [htw, hdw] at h1
              have h2 := (List.takeWhile_append_dropWhile (p := Char.isDigit) (l := r2)).symm
              rw [htw2] at h2
              show s.data = _
              rw [h1]
              conv_rhs => rw [← h2]
            · intro c hc
              cases hdw2 : List.dropWhile Char.isDigit r2 with
              | nil =>
                rw [hdw2] at hc
                exact absurd hc (by simp)
              | cons d t =>
                rw [hdw2] at hc
                have hcd : c = d := by simpa [List.take] using hc
                subst hcd
                exact head_of_dropWhile_not Char.isDigit r2 c t hdw2
        · have herr : ParseMajorMinorVersion s = .error ("invalid version format: " ++ s) := by
            simp [ParseMajorMinorVersion, htw, hdw, hx]
          rw [herr] at hv
          exact Except.noConfusion hv

/-- C8 witness: the spec's example nightly version parses to "4.15". -/
theorem parseMajorMinorVersion_spec_witness :
    ParseMajorMinorVersion "4.15.0-0.nightly-2024-01-15-123456" =
      .ok (String.mk ['4', '.', '1', '5']) := by
  refine (parseMajorMinorVersion_spec "4.15.0-0.nightly-2024-01-15-123456").1
    ['4'] ['1', '5'] ".0-0.nightly-2024-01-15-123456".toList ?_ (by decide)
  refine ⟨by decide, by decide, by decide, by decide, by decide⟩

/-! ## Claim C7 -/

theorem findEnvInLines_cons_ok (name line : List Char) (rest : List (List Char))
    (p1 : List Char) (h : splitOnCharList '=' line = [name, p1]) :
    findEnvInLines name (line :: rest) = .ok p1 := by
  simp [findEnvInLines, h]

theorem findEnvInLines_cons_skip (name line : List Char) (rest : List (List Char))
    (hno : ∀ v, splitOnCharList '=' line ≠ [name, v]) :
    findEnvInLines name (line :: rest) = findEnvInLines name rest := by
  cases hsp : splitOnCharList '=' line with
  | nil => simp [findEnvInLines, hsp]
  | cons p0 ps =>
    cases ps with
    | nil => simp [findEnvInLines, hsp]
    | cons p1 ps2 =>
      cases ps2 with
      | nil =>
        have hp0 : p0 ≠ name := by
          intro h
          exact hno p1 (by rw [hsp, h])
        simp [findEnvInLines, hsp, hp0]
      | cons q qs => simp [findEnvInLines, hsp]

/-- The per-line condition of the scanning loop: the line splits (on every
occurrence of the separator) into exactly two parts and the first part is
the variable name. -/
def lineYields (name line : List Char) : Bool :=
  match splitOnCharList '=' line with
  | [p0, _] => p0 == name
  | _ => false

theorem not_yields_elim (name l : List Char) (h : lineYields name l = false) :
    ∀ u, splitOnCharList '=' l ≠ [name, u] := by
  intro u hu
  unfold lineYields at h
  rw [hu] at h
  simp at h

/-- C7 corrected: for any log whose lines decompose as a prefix of
non-yielding lines followed by a line splitting into exactly the variable
name and one value, the scan returns that first matching line's value;
when no line yields the variable it returns the error; and a line of the
form name=value with no further equals sign in name or value splits into
exactly the name and the value (so the value after its single equals sign
is what is returned). -/
theorem findEnvInLines_amended (name : List Char) (lines : List (List Char)) :
    (∀ pre line post v, lines = pre ++ line :: post →
      (∀ l ∈ pre, lineYields name l = false) →
      splitOnCharList '=' line = [name, v] →
      findEnvInLines name lines = .ok v) ∧
    ((∀ l ∈ lines, lineYields name l = false) →
      findEnvInLines name lines = .error ("env var not discovered: " ++ String.mk name)) ∧
    (∀ v : List Char, '=' ∉ name → '=' ∉ v →
      splitOnCharList '=' (name ++ '=' :: v) = [name, v]) := by
  refine ⟨?_, ?_, ?_⟩
  · intro pre line post v hlines hpre hline
    subst hlines
    revert hpre
    induction pre with
    | nil =>
      intro _
      exact findEnvInLines_cons_ok name line post v hline
    | cons l pre' ih =>
      intro hpre
      rw [List.cons_append,
        findEnvInLines_cons_skip name l (pre' ++ line :: post)
          (not_yields_elim name l (hpre l (by simp)))]
      exact ih (fun x hx => hpre x (by simp [hx]))
  · intro hall
    revert hall
    induction lines with
    | nil =>
      intro _
      rfl
    | cons l rest ih =>
      intro hall
      rw [findEnvInLines_cons_skip name l rest
        (not_yields_elim name l (hall l (by simp)))]
      exact ih (fun x hx => hall x (by simp [hx]))
  · intro v hn hv
    rw [splitOnCharList_append_sep '=' name v hn, splitOnCharList_of_not_mem '=' v hv]

/-- C7 witness: in a multi-line log the first line is skipped (it splits
into three parts because its value contains an equals sign), and the
value of the first INDEX_NAME line is returned. -/
theorem findEnvInLines_amended_witness :
    findEnvInLines "INDEX_NAME".toList
      ["LANG=C.UTF-8=extra".toList, "INDEX_NAME=os-docs-1".toList, "HOME=/root".toList] =
      .ok "os-docs-1".toList :=
  (findEnvInLines_amended "INDEX_NAME".toList
      ["LANG=C.UTF-8=extra".toList, "INDEX_NAME=os-docs-1".toList, "HOME=/root".toList]).1
    ["LANG=C.UTF-8=extra".toList] "INDEX_NAME=os-docs-1".toList ["HOME=/root".toList]
    "os-docs-1".toList rfl (by decide) (by decide)

/-- C7 counterexample: a log line whose value contains an equals sign
splits into three parts, is skipped by the length-two check, and so the
extraction errors instead of returning the text after the first equals
sign as the claim states. -/
theorem extractEnvFromPodLogs_counterexample :
    extractEnvFromPodLogs "INDEX_NAME=a=b" "INDEX_NAME" =
      .error "env var not discovered: INDEX_NAME" ∧
    extractEnvFromPodLogs "INDEX_NAME=a=b" "INDEX_NAME" ≠ .ok "a=b" := by
  constructor
  · rfl
  · intro h
    rw [show extractEnvFromPodLogs "INDEX_NAME=a=b" "INDEX_NAME" =
      .error "env var not discovered: INDEX_NAME" from rfl] at h
    exact Except.noConfusion h

/-! ## Claim C10 -/

/-- C10: GetOLSSubscriptionName is the operator package name, a dash, and
exactly the first five characters of the instance UID; it is defined (no
panic) exactly when the UID has at least five characters; and instances
sharing the same first five UID characters get the same subscription
name. -/
theorem getOLSSubscriptionName_spec :
    (∀ inst : OpenStackLightspeed, 5 ≤ inst.uid.toList.length →
      GetOLSSubscriptionName inst =
        some (OLSOperatorName ++ "-" ++ String.mk (inst.uid.toList.take 5))) ∧
    (∀ inst : OpenStackLightspeed, inst.uid.toList.length < 5 →
      GetOLSSubscriptionName inst = none) ∧
    (∀ i j : OpenStackLightspeed, i.uid.toList.take 5 = j.uid.toList.take 5 →
      GetOLSSubscriptionName i = GetOLSSubscriptionName j) := by
  refine ⟨?_, ?_, ?_⟩
  · intro inst h
    unfold GetOLSSubscriptionName
    rw [if_pos h]
  · intro inst h
    unfold GetOLSSubscriptionName
    rw [if_neg (Nat.not_le.mpr h)]
  · intro i j h
    have hlen : min 5 i.uid.toList.length = min 5 j.uid.toList.length := by
      rw [← List.length_take, ← List.length_take, h]
    unfold GetOLSSubscriptionName
    by_cases hi : 5 ≤ i.uid.toList.length
    · have hj : 5 ≤ j.uid.toList.length := by omega
      rw [if_pos hi, if_pos hj, h]
    · have hj : ¬ 5 ≤ j.uid.toList.length := by omega
      rw [if_neg hi, if_neg hj]

/-- C10 witness: a concrete instance with a 10-character UID. -/
theorem getOLSSubscriptionName_spec_witness :
    GetOLSSubscriptionName
      ⟨"abcde12345", "ns1", "", "", "", "", 0, "", "", "", "", false⟩ =
      some (OLSOperatorName ++ "-" ++ String.mk ("abcde12345".toList.take 5)) :=
  getOLSSubscriptionName_spec.1
    ⟨"abcde12345", "ns1", "", "", "", "", 0, "", "", "", "", false⟩ (by decide)

/-! ## JSON-like model of unstructured Kubernetes objects

The OLSConfig is handled by the Go code as an `unstructured.Unstructured`:
a dynamic tree of maps, slices and scalars.  We model the tree with `JVal`
(objects as association lists: Go maps are unordered, so list order is a
deterministic representative and structural equality implies map
equality), together with models of the apimachinery accessors
`SetNestedField`/`SetNestedSlice` (`setNF`, which errors when an
intermediate value exists and is not a map and creates missing
intermediates) and plain nested lookup (`getNF`). -/

inductive JVal where
  | null : JVal
  | bool : Bool → JVal
  | num : Int → JVal
  | str : String → JVal
  | arr : List JVal → JVal
  | obj : List (String × JVal) → JVal

/-- Go map lookup on the association-list representation. -/
def lookupKey {α : Type} : List (String × α) → String → Option α
  | [], _ => none
  | (k, v) :: rest, key => if k = key then some v else lookupKey rest key

/-- Go map insertion: replace in place when the key is present, append
otherwise (a deterministic representative of the unordered Go map). -/
def setKey {α : Type} : List (String × α) → String → α → List (String × α)
  | [], key, v => [(key, v)]
  | (k, w) :: rest, key, v =>
    if k = key then (key, v) :: rest else (k, w) :: setKey rest key v

/-- Model of `unstructured.SetNestedField`: walk the path, erroring when an
intermediate value exists and is not a map, creating empty maps for
missing intermediates, and setting the final field unconditionally. -/
def setNF : List String → JVal → JVal → Except String JVal
  | [], _, _ => .error "no fields provided"
  | [k], o, v =>
    match o with
    | .obj fs => .ok (.obj (setKey fs k v))
    | _ => .error ("value cannot be set because " ++ k ++ " is not a map")
  | k :: k2 :: rest, o, v =>
    match o with
    | .obj fs =>
      match lookupKey fs k with
      | some (.obj fs2) =>
        match setNF (k2 :: rest) (.obj fs2) v with
        | .ok m => .ok (.obj (setKey fs k m))
        | .error e => .error e
      | some _ => .error ("value cannot be set because " ++ k ++ " is not a map")
      | none =>
        match setNF (k2 :: rest) (.obj []) v with
        | .ok m => .ok (.obj (setKey fs k m))
        | .error e => .error e
    | _ => .error ("value cannot be set because " ++ k ++ " is not a map")

/-- Plain nested field lookup (NestedFieldNoCopy, collapsing its error and
not-found outcomes to `none`; callers that distinguish them re-derive the
distinction). -/
def getNF : List String → JVal → Option JVal
  | [], o => some o
  | k :: rest, o =>
    match o with
    | .obj fs =>
      match lookupKey fs k with
      | some m => getNF rest m
      | none => none
    | _ => none

theorem lookupKey_setKey_self {α : Type} (fs : List (String × α)) (k : String) (v : α) :
    lookupKey (setKey fs k v) k = some v := by
  induction fs with
  | nil => simp [setKey, lookupKey]
  | cons p rest ih =>
    obtain ⟨k1, w⟩ := p
    by_cases hk : k1 = k
    · simp [setKey, hk, lookupKey]
    · simp [setKey, hk, lookupKey, ih]

theorem lookupKey_setKey_ne {α : Type} (fs : List (String × α)) (k k' : String) (v : α)
    (h : k ≠ k') : lookupKey (setKey fs k v) k' = lookupKey fs k' := by
  induction fs with
  | nil => simp [setKey, lookupKey, h]
  | cons p rest ih =>
    obtain ⟨k1, w⟩ := p
    by_cases hk : k1 = k
    · subst hk
      simp [setKey, lookupKey, h]
    · by_cases hk2 : k1 = k'
      · subst hk2
        simp [setKey, hk, lookupKey]
      · simp [setKey, hk, lookupKey, hk2, ih]

theorem setKey_of_lookup_self {α : Type} (fs : List (String × α)) (k : String) (v : α)
    (h : lookupKey fs k = some v) : setKey fs k v = fs := by
  induction fs with
  | nil => simp [lookupKey] at h
  | cons p rest ih =>
    obtain ⟨k1, w⟩ := p
    by_cases hk : k1 = k
    · subst hk
      simp [lookupKey] at h
      subst h
      simp [setKey]
    · simp only [lookupKey, if_neg hk] at h
      simp [setKey, hk, ih h]

/-- If a nested set succeeded, the source was an object. -/
theorem setNF_ok_src_obj (p : List String) (o o' v : JVal) (hp : p ≠ [])
    (h : setNF p o v = .ok o') : ∃ fs, o = .obj fs := by
  cases p with
  | nil => exact absurd rfl hp
  | cons k rest =>
    cases rest <;> cases o <;> first
      | exact ⟨_, rfl⟩
      | simp [setNF] at h

/-- If a nested get succeeded on a nonempty path, the root is an object
with the head key present. -/
theorem getNF_cons_elim (k : String) (rest : List String) (o w : JVal)
    (h : getNF (k :: rest) o = some w) :
    ∃ fs m, o = .obj fs ∧ lookupKey fs k = some m ∧ getNF rest m = some w := by
  cases o with
  | obj fs =>
    simp only [getNF] at h
    split at h
    · rename_i m hl
      exact ⟨fs, m, rfl, hl, h⟩
    · cases h
  | null => simp [getNF] at h
  | bool b => simp [getNF] at h
  | num n => simp [getNF] at h
  | str s => simp [getNF] at h
  | arr xs => simp [getNF] at h

/-- After a successful nested set, the value at the set path is the value
that was written. -/
theorem getNF_setNF_self (p : List String) (o o' v : JVal) (h : setNF p o v = .ok o') :
    getNF p o' = some v := by
  induction p generalizing o o' with
  | nil => simp [setNF] at h
  | cons k rest ih =>
    obtain ⟨fs, rfl⟩ := setNF_ok_src_obj (k :: rest) o o' v (by simp) h
    cases rest with
    | nil =>
      simp only [setNF, Except.ok.injEq] at h
      subst h
      simp [getNF, lookupKey_setKey_self]
    | cons k2 rt =>
      simp only [setNF] at h
      split at h
      · rename_i fs2 hl
        split at h
        · rename_i mm hset
          simp only [Except.ok.injEq] at h
          subst h
          simp only [getNF, lookupKey_setKey_self]
          exact ih (.obj fs2) mm hset
        · exact Except.noConfusion h
      · exact Except.noConfusion h
      · rename_i hl
        split at h
        · rename_i mm hset
          simp only [Except.ok.injEq] at h
          subst h
          simp only [getNF, lookupKey_setKey_self]
          exact ih (.obj []) mm hset
        · exact Except.noConfusion h

/-- A successful nested set at path `q` does not change the value at any
path `p` that is neither a prefix nor an extension of `q`. -/
theorem getNF_setNF_other (q : List String) (o o' w : JVal) (p : List String)
    (h : setNF q o w = .ok o') (hpq : ¬ p <+: q) (hqp : ¬ q <+: p) :
    getNF p o' = getNF p o := by
  induction q generalizing o o' p with
  | nil => simp [setNF] at h
  | cons k qt ih =>
    obtain ⟨fs, rfl⟩ := setNF_ok_src_obj (k :: qt) o o' w (by simp) h
    cases p with
    | nil => exact absurd List.nil_prefix hpq
    | cons a pt =>
      cases qt with
      | nil =>
        simp only [setNF, Except.ok.injEq] at h
        subst h
        by_cases hak : a = k
        · subst hak
          exact absurd ⟨pt, rfl⟩ hqp
        · simp only [getNF, lookupKey_setKey_ne fs k a w (fun he => hak he.symm)]
      | cons k2 qtt =>
        simp only [setNF] at h
        split at h
        · rename_i fs2 hl
          split at h
          · rename_i mm hset
            simp only [Except.ok.injEq] at h
            subst h
            by_cases hak : a = k
            · subst hak
              have hp' : ¬ pt <+: (k2 :: qtt) := by
                rintro ⟨t, ht⟩
                exact hpq ⟨t, by rw [List.cons_append, ht]⟩
              have hq' : ¬ (k2 :: qtt) <+: pt := by
                rintro ⟨t, ht⟩
                exact hqp ⟨t, by rw [List.cons_append, ht]⟩
              simp only [getNF, lookupKey_setKey_self, hl]
              exact ih (.obj fs2) mm pt hset hp' hq'
            · simp only [getNF, lookupKey_setKey_ne fs k a mm (fun he => hak he.symm)]
          · exact Except.noConfusion h
        · exact Except.noConfusion h
        · rename_i hl
          split at h
          · rename_i mm hset
            simp only [Except.ok.injEq] at h
            subst h
            by_cases hak : a = k
            · subst hak
              have hp' : ¬ pt <+: (k2 :: qtt) := by
                rintro ⟨t, ht⟩
                exact hpq ⟨t, by rw [List.cons_append, ht]⟩
              have hq' : ¬ (k2 :: qtt) <+: pt := by
                rintro ⟨t, ht⟩
                exact hqp ⟨t, by rw [List.cons_append, ht]⟩
              simp only [getNF, lookupKey_setKey_self, hl]
              rw [ih (.obj []) mm pt hset hp' hq']
              cases pt with
              | nil => exact absurd ⟨k2 :: qtt, rfl⟩ hpq
              | cons b bt => simp [getNF, lookupKey]
            · simp only [getNF, lookupKey_setKey_ne fs k a mm (fun he => hak he.symm), hl]
          · exact Except.noConfusion h

/-- Setting a path to the value it already holds is the identity. -/
theorem setNF_of_getNF (p : List String) (o v : JVal) (hp : p ≠ [])
    (h : getNF p o = some v) : setNF p o v = .ok o := by
  induction p generalizing o with
  | nil => exact absurd rfl hp
  | cons k rest ih =>
    obtain ⟨fs, m, rfl, hl, hm⟩ := getNF_cons_elim k rest o v h
    cases rest with
    | nil =>
      simp only [getNF, Option.some.injEq] at hm
      subst hm
      simp [setNF, setKey_of_lookup_self fs k m hl]
    | cons k2 rt =>
      obtain ⟨fs2, m2, rfl, _, _⟩ := getNF_cons_elim k2 rt m v hm
      have hrec := ih (.obj fs2) (by simp) hm
      simp [setNF, hl, hrec, setKey_of_lookup_self fs k (.obj fs2) hl]

theorem exceptOk_bind {ε α β : Type} (a : α) (f : α → Except ε β) :
    (Except.ok (ε := ε) a >>= f) = f a := rfl

theorem exceptBind_ok {ε α β : Type} (x : Except ε α) (f : α → Except ε β) (b : β)
    (h : (x >>= f) = .ok b) : ∃ a, x = .ok a ∧ f a = .ok b := by
  cases x with
  | ok a => exact ⟨a, rfl, h⟩
  | error e => exact Except.noConfusion h

/-! ## OLSConfig constants and accessors (funcs.go) -/

def OpenStackLightspeedDefaultProvider : String := "openstack-lightspeed-provider"

def OpenStackLightspeedOwnerIDLabel : String := "openstack.org/lightspeed-owner-id"

def OpenStackLightspeedVectorDBPath : String := "/rag/vector_db/os_product_docs"

def OLSConfigName : String := "cluster"

/-- Extract an all-string-valued object as label pairs (NestedStringMap
succeeds only on maps of strings). -/
def strPairs? : List (String × JVal) → Option (List (String × String))
  | [] => some []
  | (k, .str s) :: rest => (strPairs? rest).map (fun l => (k, s) :: l)
  | _ => none

/-- GetLabels on an unstructured object: metadata.labels when it is an
all-string map, nil (empty) otherwise. -/
def GetLabels (o : JVal) : List (String × String) :=
  match getNF ["metadata", "labels"] o with
  | some (.obj fs) => (strPairs? fs).getD []
  | _ => []

def labelsToJVal (l : List (String × String)) : JVal :=
  .obj (l.map (fun kv => (kv.1, .str kv.2)))

/-- All-string-valued array extraction (NestedStringSlice). -/
def strElems? : List JVal → Option (List String)
  | [] => some []
  | .str s :: rest => (strElems? rest).map (fun l => s :: l)
  | _ => none

/-- GetFinalizers: metadata.finalizers when it is a slice of strings, nil
otherwise. -/
def GetFinalizers (o : JVal) : List String :=
  match getNF ["metadata", "finalizers"] o with
  | some (.arr xs) => (strElems? xs).getD []
  | _ => []

def finalizersToJVal (l : List String) : JVal := .arr (l.map .str)

/-- controllerutil.AddFinalizer: returns false without touching the object
when the finalizer is present, otherwise appends it.  The unstructured
finalizer setter swallows shape errors, hence the fallback. -/
def AddFinalizer (o : JVal) (fin : String) : JVal × Bool :=
  let fins := GetFinalizers o
  if fin ∈ fins then (o, false)
  else
    match setNF ["metadata", "finalizers"] o (finalizersToJVal (fins ++ [fin])) with
    | .ok o' => (o', true)
    | .error _ => (o, true)

/-- controllerutil.RemoveFinalizer: removes all occurrences, returning
whether anything was removed. -/
def RemoveFinalizer (o : JVal) (fin : String) : JVal × Bool :=
  let fins := GetFinalizers o
  if fin ∈ fins then
    match setNF ["metadata", "finalizers"] o (finalizersToJVal (fins.filter (· ≠ fin))) with
    | .ok o' => (o', true)
    | .error _ => (o, true)
  else (o, false)

/-! ## PatchOLSConfig (funcs.go) -/

/-- The label merge of PatchOLSConfig: a fresh map holding the ownership
entry, with all existing labels copied over it (so existing keys,
including an existing ownership label, win). -/
def mergeLabels (uid : String) (labels : List (String × String)) : List (String × String) :=
  labels.foldl (fun acc kv => setKey acc kv.1 kv.2) [(OpenStackLightspeedOwnerIDLabel, uid)]

/-- The providers section written by PatchOLSConfig. -/
def providersPatch (inst : OpenStackLightspeed) : JVal :=
  .arr [.obj [
    ("credentialsSecretRef", .obj [("name", .str inst.llmCredentials)]),
    ("models", .arr [.obj [
      ("name", .str inst.modelName),
      ("parameters", .obj [("maxTokensForResponse", .num inst.maxTokensForResponse)])]]),
    ("name", .str OpenStackLightspeedDefaultProvider),
    ("type", .str inst.llmEndpointType),
    ("url", .str inst.llmEndpoint)]]

/-- The RAG section written by PatchOLSConfig. -/
def openstackRAG (inst : OpenStackLightspeed) : JVal :=
  .arr [.obj [
    ("image", .str inst.ragImage),
    ("indexPath", .str OpenStackLightspeedVectorDBPath)]]

/-- PatchOLSConfig patches the OLSConfig with information from the
OpenStackLightspeed instance: providers, RAG list, optional CA bundle,
default model/provider, the byokRAGOnly toggle, the ownership label merge
and the finalizer.  `fin` is helper.GetFinalizer(). -/
def PatchOLSConfig (fin : String) (inst : OpenStackLightspeed) (olsConfig : JVal) :
    Except String JVal := do
  let o1 ← setNF ["spec", "llm", "providers"] olsConfig (providersPatch inst)
  let o2 ← setNF ["spec", "ols", "rag"] o1 (openstackRAG inst)
  let o3 ← (if inst.tlsCACertBundle ≠ "" then
      setNF ["spec", "ols", "additionalCAConfigMapRef", "name"] o2 (.str inst.tlsCACertBundle)
    else pure o2)
  let o4 ← setNF ["spec", "ols", "defaultModel"] o3 (.str inst.modelName)
  let o5 ← setNF ["spec", "ols", "defaultProvider"] o4 (.str OpenStackLightspeedDefaultProvider)
  let o6 ← setNF ["spec", "ols", "byokRAGOnly"] o5 (.bool true)
  let o7 ← setNF ["metadata", "labels"] o6 (labelsToJVal (mergeLabels inst.uid (GetLabels o6)))
  let p := AddFinalizer o7 fin
  if !p.2 && inst.statusConditionsNil then .error "cannot add finalizer"
  else .ok p.1

/-! ## The Reconcile patch step (ols_install.go, CreateOrPatch) -/

/-- The freshly-constructed OLSConfig that the Reconcile patch step starts
from when the singleton is absent (GVK and mandatory name). -/
def freshOLSConfig : JVal :=
  .obj [("apiVersion", .str "ols.openshift.io/v1alpha1"),
        ("kind", .str "OLSConfig"),
        ("metadata", .obj [("name", .str OLSConfigName)])]

/-- The mutate closure at the patch step of Reconcile: abort with a
conflict error when the ownership label is set and names another instance,
otherwise run PatchOLSConfig. -/
def reconcileMutate (fin : String) (inst : OpenStackLightspeed) (o : JVal) :
    Except String JVal :=
  let ownerLabel := (lookupKey (GetLabels o) OpenStackLightspeedOwnerIDLabel).getD ""
  if ownerLabel ≠ "" ∧ ownerLabel ≠ inst.uid then
    .error "OLSConfig is managed by different OpenStackLightspeed instance"
  else PatchOLSConfig fin inst o

/-- CreateOrPatch on the cluster-scoped singleton: a mutate error leaves
the cluster object untouched and is returned; otherwise the mutated object
is written back (created when absent). -/
def reconcilePatchStep (fin : String) (inst : OpenStackLightspeed) (ols : Option JVal) :
    Option JVal × Option String :=
  match ols with
  | some o =>
    match reconcileMutate fin inst o with
    | .error e => (some o, some e)
    | .ok o' => (some o', none)
  | none =>
    match reconcileMutate fin inst freshOLSConfig with
    | .error e => (none, some e)
    | .ok o' => (some o', none)

/-! ## RemoveOLSConfig (funcs.go) -/

/-- The OLSConfig slot of the cluster together with a count of issued
client Delete calls, so that deletion attempts are observable. -/
structure OLSSlot where
  obj : Option JVal
  deleteCount : Nat

/-- The mutate closure of RemoveOLSConfig: skip (no change) when the
ownership label is empty or names another instance, otherwise remove the
finalizer, erroring when it was not present. -/
def removeMutate (fin : String) (inst : OpenStackLightspeed) (o : JVal) :
    Except String JVal :=
  let ownerLabel := (lookupKey (GetLabels o) OpenStackLightspeedOwnerIDLabel).getD ""
  if ownerLabel = "" ∨ ownerLabel ≠ inst.uid then .ok o
  else
    match RemoveFinalizer o fin with
    | (o', true) => .ok o'
    | (_, false) => .error "remove finalizer failed"

/-- RemoveOLSConfig: fetch (not-found short-circuits to done), run the
guarded finalizer-removal patch (a patch error aborts without deleting),
then issue Delete on the object unconditionally. -/
def RemoveOLSConfig (fin : String) (inst : OpenStackLightspeed) (s : OLSSlot) :
    OLSSlot × (Bool × Option String) :=
  match s.obj with
  | none => (s, (true, none))
  | some o =>
    match removeMutate fin inst o with
    | .error e => (s, (false, some e))
    | .ok _ => ({ obj := none, deleteCount := s.deleteCount + 1 }, (true, none))

/-! ## Claim C2 -/

/-- C2 amended: when the singleton's ownership label is present with a
non-empty value different from the reconciled instance's UID, the patch
step of Reconcile returns the conflict error and leaves the singleton
unmutated. -/
theorem reconcilePatchStep_conflict (fin : String) (inst : OpenStackLightspeed)
    (o : JVal) (l : String)
    (hl : lookupKey (GetLabels o) OpenStackLightspeedOwnerIDLabel = some l)
    (hne : l ≠ "") (hnu : l ≠ inst.uid) :
    reconcilePatchStep fin inst (some o) =
      (some o, some "OLSConfig is managed by different OpenStackLightspeed instance") := by
  have hstep : reconcilePatchStep fin inst (some o) =
      match reconcileMutate fin inst o with
      | .error e => (some o, some e)
      | .ok o' => (some o', none) := rfl
  rw [hstep]
  unfold reconcileMutate
  rw [hl]
  simp [hne, hnu]

/-- Concrete instance used by the C2 counterexample and witness. -/
def C2inst : OpenStackLightspeed :=
  ⟨"uid-c2-0001", "osl", "http://llm.example", "openai", "llm-secret", "model-a",
    512, "quay.io/rag:1", "", "catalog", "openshift-marketplace", false⟩

/-- A singleton whose ownership label is present with the empty value. -/
def C2obj : JVal :=
  .obj [("metadata", .obj [("name", .str OLSConfigName),
        ("labels", .obj [(OpenStackLightspeedOwnerIDLabel, .str "")])])]

/-- A singleton owned by a different instance. -/
def C2wobj : JVal :=
  .obj [("metadata", .obj [("name", .str OLSConfigName),
        ("labels", .obj [(OpenStackLightspeedOwnerIDLabel, .str "uid-other-0002")])])]

/-- C2 witness: a populated foreign ownership label triggers the conflict
error and no mutation. -/
theorem reconcilePatchStep_conflict_witness :
    reconcilePatchStep "openstacklightspeed" C2inst (some C2wobj) =
      (some C2wobj, some "OLSConfig is managed by different OpenStackLightspeed instance") :=
  reconcilePatchStep_conflict "openstacklightspeed" C2inst C2wobj "uid-other-0002" rfl
    (by decide) (by decide)

/-- C2 counterexample: an ownership label that is present but empty is
treated as unowned — the patch step reports no error and mutates the
singleton, contradicting the claim for labels that are merely present. -/
theorem reconcilePatchStep_counterexample :
    (reconcilePatchStep "openstacklightspeed" C2inst (some C2obj)).2 = none ∧
    (reconcilePatchStep "openstacklightspeed" C2inst (some C2obj)).1 ≠ some C2obj := by
  constructor
  · rfl
  · intro h
    have h1 : Option.map (getNF ["spec", "ols", "byokRAGOnly"])
        (reconcilePatchStep "openstacklightspeed" C2inst (some C2obj)).1 =
        some (some (JVal.bool true)) := rfl
    rw [h] at h1
    have h2 : Option.map (getNF ["spec", "ols", "byokRAGOnly"]) (some C2obj) = some none := rfl
    rw [h2] at h1
    exact Option.noConfusion (Option.some.inj h1)

/-! ## Claim C9 -/

/-- C9: when the singleton exists and the guarded patch succeeds,
RemoveOLSConfig issues the Delete and returns (true, nil) — in particular
whenever the ownership label is absent/empty or names a different
instance, since the ownership check guards only the finalizer removal —
and the not-found case is the only (true, nil) outcome with no deletion
attempt. -/
theorem removeOLSConfig_spec (fin : String) (inst : OpenStackLightspeed) (s : OLSSlot) :
    (∀ o o', s.obj = some o → removeMutate fin inst o = .ok o' →
      RemoveOLSConfig fin inst s =
        ({ obj := none, deleteCount := s.deleteCount + 1 }, (true, none))) ∧
    (∀ o, s.obj = some o →
      ((lookupKey (GetLabels o) OpenStackLightspeedOwnerIDLabel).getD "" = "" ∨
        (lookupKey (GetLabels o) OpenStackLightspeedOwnerIDLabel).getD "" ≠ inst.uid) →
      RemoveOLSConfig fin inst s =
        ({ obj := none, deleteCount := s.deleteCount + 1 }, (true, none))) ∧
    (s.obj = none → RemoveOLSConfig fin inst s = (s, (true, none))) := by
  refine ⟨?_, ?_, ?_⟩
  · intro o o' hobj hmut
    simp [RemoveOLSConfig, hobj, hmut]
  · intro o hobj hcond
    have hmut : removeMutate fin inst o = .ok o := by
      simp only [removeMutate]
      rw [if_pos hcond]
    simp [RemoveOLSConfig, hobj, hmut]
  · intro h
    simp [RemoveOLSConfig, h]

/-- Concrete instance and unowned singleton for the C9 witness. -/
def C9inst : OpenStackLightspeed :=
  ⟨"uid-c9-0001", "osl", "http://llm.example", "openai", "llm-secret", "model-a",
    512, "quay.io/rag:1", "", "catalog", "openshift-marketplace", false⟩

def C9obj : JVal := .obj [("metadata", .obj [("name", .str OLSConfigName)])]

/-- C9 witness: an unlabeled singleton is deleted anyway. -/
theorem removeOLSConfig_spec_witness :
    RemoveOLSConfig "openstacklightspeed" C9inst ⟨some C9obj, 0⟩ =
      ({ obj := none, deleteCount := 1 }, (true, none)) :=
  (removeOLSConfig_spec "openstacklightspeed" C9inst ⟨some C9obj, 0⟩).2.1 C9obj rfl
    (Or.inl rfl)

/-! ## IsOLSConfigReady and OLSConfigPing (funcs.go) -/

/-- A status condition, as decoded from the OLSConfig's condition list. -/
structure SimCondition where
  type : String
  status : String
deriving DecidableEq

/-- The cluster as seen by IsOLSConfigReady: the OLSConfig singleton and
the next value of the random generator used for the ping label. -/
structure PingCluster where
  obj : Option JVal
  pingVal : Nat

/-- OLSConfigPing: fetch the singleton (erroring when absent), add a
random-valued ping label, and update the object. -/
def OLSConfigPing (c : PingCluster) : PingCluster × Option String :=
  match c.obj with
  | none => (c, some "OLSConfig not found")
  | some o =>
    let labels2 := setKey (GetLabels o) "openstack-lightspeed/ping" (toString c.pingVal)
    let o2 := match setNF ["metadata", "labels"] o (labelsToJVal labels2) with
      | .ok o' => o'
      | .error _ => o
    ({ c with obj := some o2 }, none)

/-- The three outcomes of a NestedSlice read. -/
inductive SliceRead where
  | found : List JVal → SliceRead
  | missing : SliceRead
  | typeErr : String → SliceRead

/-- NestedFieldNoCopy with the found/error distinction: a missing key is
not-found without error; an intermediate non-map is an error. -/
def nestedRead : List String → JVal → Except String (Option JVal)
  | [], o => .ok (some o)
  | k :: rest, o =>
    match o with
    | .obj fs =>
      match lookupKey fs k with
      | some m => nestedRead rest m
      | none => .ok none
    | _ => .error (k ++ " accessor error: not a map")

/-- NestedSlice: found only when the value exists and is a slice; a
non-slice value is an accessor error. -/
def nestedSlice (p : List String) (o : JVal) : SliceRead :=
  match nestedRead p o with
  | .error e => .typeErr e
  | .ok none => .missing
  | .ok (some (.arr xs)) => .found xs
  | .ok (some _) => .typeErr "accessor error: not a slice"

/-- Decoding one condition from the JSON round trip: objects yield their
string "type"/"status" fields (absent fields are zero values), null yields
the zero condition, and anything else fails to unmarshal. -/
def strField (fs : List (String × JVal)) (k : String) : Except String String :=
  match lookupKey fs k with
  | some (.str s) => .ok s
  | some _ => .error "failed to unmarshal JSON containing condition.Conditions"
  | none => .ok ""

def parseCondition : JVal → Except String SimCondition
  | .obj fs => do
    let t ← strField fs "type"
    let s ← strField fs "status"
    .ok ⟨t, s⟩
  | .null => .ok ⟨"", ""⟩
  | _ => .error "failed to unmarshal JSON containing condition.Conditions"

def parseConditions : List JVal → Except String (List SimCondition)
  | [] => .ok []
  | x :: rest => do
    let c ← parseCondition x
    let cs ← parseConditions rest
    .ok (c :: cs)

def requiredConditionTypes : List String :=
  ["ConsolePluginReady", "CacheReady", "ApiReady", "Reconciled"]

/-- The double loop of IsOLSConfigReady: it returns early exactly when
some listed condition has a required type and a non-True status. -/
def someRequiredNotTrue (conds : List SimCondition) : Bool :=
  conds.any (fun cd => requiredConditionTypes.contains cd.type && cd.status != "True")

/-- IsOLSConfigReady: fetch the singleton, read status.conditions (absent
list: not ready with the read's own nil error), decode, and require that
no required-type condition be non-True; when one is, ping and return the
ping's error. -/
def IsOLSConfigReady (c : PingCluster) : PingCluster × (Bool × Option String) :=
  match c.obj with
  | none => (c, (false, some "OLSConfig not found"))
  | some o =>
    match nestedSlice ["status", "conditions"] o with
    | .missing => (c, (false, none))
    | .typeErr e => (c, (false, some e))
    | .found xs =>
      match parseConditions xs with
      | .error e => (c, (false, some e))
      | .ok conds =>
        if someRequiredNotTrue conds then
          let p := OLSConfigPing c
          (p.1, (false, p.2))
        else (c, (true, none))

/-- Spec-side predicate from the claim's words: every one of the four
required condition types appears in the list with status True. -/
def allRequiredPresentTrue (conds : List SimCondition) : Bool :=
  requiredConditionTypes.all
    (fun rt => conds.any (fun cd => cd.type == rt && cd.status == "True"))

theorem someRequiredNotTrue_true_iff (conds : List SimCondition) :
    someRequiredNotTrue conds = true ↔
      ∃ cd ∈ conds, cd.type ∈ requiredConditionTypes ∧ cd.status ≠ "True" := by
  unfold someRequiredNotTrue
  rw [List.any_eq_true]
  constructor
  · rintro ⟨cd, hcd, hp⟩
    rw [Bool.and_eq_true] at hp
    refine ⟨cd, hcd, ?_, ?_⟩
    · have h1 := hp.1
      simp only [List.contains, List.elem_eq_mem] at h1
      exact of_decide_eq_true h1
    · have h2 := hp.2
      rw [bne_iff_ne] at h2
      exact h2
  · rintro ⟨cd, hcd, hmem, hne⟩
    refine ⟨cd, hcd, ?_⟩
    rw [Bool.and_eq_true]
    constructor
    · simp only [List.contains, List.elem_eq_mem]
      exact decide_eq_true hmem
    · rw [bne_iff_ne]
      exact hne

/-! ## Claim C3 -/

/-- C3 amended: IsOLSConfigReady reports (true, nil) iff the fetched
singleton has a decodable condition list in which NO condition of a
required type has a non-True status (required types that do not appear at
all are not checked); an absent list yields (false, nil); a condition of a
required type that is not True triggers the ping and returns the ping's
result as the error. -/
theorem isOLSConfigReady_amended (c : PingCluster) :
    (c.obj = none → IsOLSConfigReady c = (c, (false, some "OLSConfig not found"))) ∧
    (∀ o, c.obj = some o → nestedSlice ["status", "conditions"] o = .missing →
      IsOLSConfigReady c = (c, (false, none))) ∧
    (∀ o xs conds, c.obj = some o → nestedSlice ["status", "conditions"] o = .found xs →
      parseConditions xs = .ok conds →
      (∀ cd ∈ conds, cd.type ∈ requiredConditionTypes → cd.status = "True") →
      IsOLSConfigReady c = (c, (true, none))) ∧
    (∀ o xs conds, c.obj = some o → nestedSlice ["status", "conditions"] o = .found xs →
      parseConditions xs = .ok conds →
      (∃ cd ∈ conds, cd.type ∈ requiredConditionTypes ∧ cd.status ≠ "True") →
      IsOLSConfigReady c = ((OLSConfigPing c).1, (false, (OLSConfigPing c).2))) := by
  refine ⟨?_, ?_, ?_, ?_⟩
  · intro h
    simp [IsOLSConfigReady, h]
  · intro o hobj hslice
    simp [IsOLSConfigReady, hobj, hslice]
  · intro o xs conds hobj hslice hparse hall
    have hfalse : someRequiredNotTrue conds = false := by
      cases hb : someRequiredNotTrue conds
      · rfl
      · obtain ⟨cd, hcd, hmem, hne⟩ := (someRequiredNotTrue_true_iff conds).mp hb
        exact absurd (hall cd hcd hmem) hne
    simp [IsOLSConfigReady, hobj, hslice, hparse, hfalse]
  · intro o xs conds hobj hslice hparse hex
    have htrue : someRequiredNotTrue conds = true :=
      (someRequiredNotTrue_true_iff conds).mpr hex
    simp [IsOLSConfigReady, hobj, hslice, hparse, htrue]

/-- An OLSConfig whose four required conditions are all True. -/
def C3wobj : JVal :=
  .obj [("metadata", .obj [("name", .str OLSConfigName)]),
        ("status", .obj [("conditions", .arr [
          .obj [("type", .str "ConsolePluginReady"), ("status", .str "True")],
          .obj [("type", .str "CacheReady"), ("status", .str "True")],
          .obj [("type", .str "ApiReady"), ("status", .str "True")],
          .obj [("type", .str "Reconciled"), ("status", .str "True")]])])]

/-- C3 witness: all four conditions True reports ready. -/
theorem isOLSConfigReady_amended_witness :
    IsOLSConfigReady ⟨some C3wobj, 0⟩ = (⟨some C3wobj, 0⟩, (true, none)) :=
  (isOLSConfigReady_amended ⟨some C3wobj, 0⟩).2.2.1 C3wobj
    [.obj [("type", .str "ConsolePluginReady"), ("status", .str "True")],
     .obj [("type", .str "CacheReady"), ("status", .str "True")],
     .obj [("type", .str "ApiReady"), ("status", .str "True")],
     .obj [("type", .str "Reconciled"), ("status", .str "True")]]
    [⟨"ConsolePluginReady", "True"⟩, ⟨"CacheReady", "True"⟩,
     ⟨"ApiReady", "True"⟩, ⟨"Reconciled", "True"⟩]
    rfl rfl rfl (by decide)

/-- An OLSConfig with a present but empty condition list. -/
def C3obj : JVal :=
  .obj [("metadata", .obj [("name", .str OLSConfigName)]),
        ("status", .obj [("conditions", .arr [])])]

/-- C3 counterexample: with an empty (present) condition list the function
returns (true, nil) although none of the four required condition types
appears in the list with status True — the code never checks that the
required types appear, only that listed ones are not non-True. -/
theorem isOLSConfigReady_counterexample :
    IsOLSConfigReady ⟨some C3obj, 0⟩ = (⟨some C3obj, 0⟩, (true, none)) ∧
    nestedSlice ["status", "conditions"] C3obj = .found [] ∧
    parseConditions [] = .ok [] ∧
    allRequiredPresentTrue [] = false := by
  refine ⟨rfl, rfl, rfl, rfl⟩

/-! ## Lemmas for patch idempotence (claim C4) -/

theorem strPairs?_map (l : List (String × String)) :
    strPairs? (l.map (fun kv => (kv.1, JVal.str kv.2))) = some l := by
  induction l with
  | nil => rfl
  | cons kv t ih =>
    obtain ⟨k, v⟩ := kv
    simp [strPairs?, ih]

theorem strElems?_map (l : List String) : strElems? (l.map JVal.str) = some l := by
  induction l with
  | nil => rfl
  | cons s t ih => simp [strElems?, ih]

theorem getLabels_of_getNF (x : JVal) (l : List (String × String))
    (h : getNF ["metadata", "labels"] x = some (labelsToJVal l)) : GetLabels x = l := by
  unfold GetLabels
  rw [h]
  unfold labelsToJVal
  simp [strPairs?_map]

theorem getFinalizers_of_getNF (x : JVal) (l : List String)
    (h : getNF ["metadata", "finalizers"] x = some (finalizersToJVal l)) :
    GetFinalizers x = l := by
  unfold GetFinalizers
  rw [h]
  unfold finalizersToJVal
  simp [strElems?_map]

/-- AddFinalizer only touches metadata.finalizers. -/
theorem getNF_addFinalizer_other (o : JVal) (fin : String) (p : List String)
    (hp1 : ¬ p <+: ["metadata", "finalizers"]) (hp2 : ¬ ["metadata", "finalizers"] <+: p) :
    getNF p (AddFinalizer o fin).1 = getNF p o := by
  unfold AddFinalizer
  by_cases hin : fin ∈ GetFinalizers o
  · rw [if_pos hin]
  · rw [if_neg hin]
    cases hset : setNF ["metadata", "finalizers"] o
        (finalizersToJVal (GetFinalizers o ++ [fin])) with
    | ok o2 =>
      simp only
      exact getNF_setNF_other _ _ _ _ p hset hp1 hp2
    | error e => simp only

/-- Re-running AddFinalizer on its own output does not change the object. -/
theorem addFinalizer_fst_idem (o o' : JVal) (fin : String) (added : Bool)
    (h : AddFinalizer o fin = (o', added)) : (AddFinalizer o' fin).1 = o' := by
  unfold AddFinalizer at h
  by_cases hin : fin ∈ GetFinalizers o
  · rw [if_pos hin] at h
    have ho : o' = o := (congrArg Prod.fst h).symm
    subst ho
    unfold AddFinalizer
    rw [if_pos hin]
  · rw [if_neg hin] at h
    cases hset : setNF ["metadata", "finalizers"] o
        (finalizersToJVal (GetFinalizers o ++ [fin])) with
    | ok o2 =>
      rw [hset] at h
      have ho : o' = o2 := (congrArg Prod.fst h).symm
      subst ho
      have hg : getNF ["metadata", "finalizers"] o' =
          some (finalizersToJVal (GetFinalizers o ++ [fin])) :=
        getNF_setNF_self _ _ _ _ hset
      have hfe : GetFinalizers o' = GetFinalizers o ++ [fin] :=
        getFinalizers_of_getNF o' _ hg
      unfold AddFinalizer
      rw [if_pos (by rw [hfe]; exact List.mem_append_right _ (List.mem_singleton.mpr rfl))]
    | error e =>
      rw [hset] at h
      have ho : o' = o := (congrArg Prod.fst h).symm
      subst ho
      unfold AddFinalizer
      rw [if_neg hin, hset]

theorem setKey_append_of_not_mem {α : Type} (l : List (String × α)) (k : String) (v : α)
    (h : ∀ p ∈ l, p.1 ≠ k) : setKey l k v = l ++ [(k, v)] := by
  induction l with
  | nil => rfl
  | cons kv t ih =>
    obtain ⟨k1, w⟩ := kv
    have hk1 : k1 ≠ k := h (k1, w) (by simp)
    simp [setKey, hk1, ih (fun p hp => h p (by simp [hp]))]

theorem mem_keys_setKey {α : Type} (l : List (String × α)) (k : String) (v : α) (a : String)
    (h : a ∈ (setKey l k v).map Prod.fst) : a ∈ l.map Prod.fst ∨ a = k := by
  induction l with
  | nil =>
    simp [setKey] at h
    exact Or.inr h
  | cons kv t ih =>
    obtain ⟨k1, w⟩ := kv
    by_cases hk : k1 = k
    · subst hk
      rw [show setKey ((k1, w) :: t) k1 v = (k1, v) :: t from by simp [setKey]] at h
      simp only [List.map_cons, List.mem_cons] at h
      rcases h with rfl | hm
      · exact Or.inr rfl
      · exact Or.inl (by simp only [List.map_cons, List.mem_cons]; exact Or.inr hm)
    · rw [show setKey ((k1, w) :: t) k v = (k1, w) :: setKey t k v from by
        simp [setKey, hk]] at h
      simp only [List.map_cons, List.mem_cons] at h
      rcases h with rfl | hm
      · exact Or.inl (by simp)
      · rcases ih hm with hl | hr
        · exact Or.inl (by simp only [List.map_cons, List.mem_cons]; exact Or.inr hl)
        · exact Or.inr hr

theorem keys_nodup_setKey {α : Type} (l : List (String × α)) (k : String) (v : α)
    (h : (l.map Prod.fst).Nodup) : ((setKey l k v).map Prod.fst).Nodup := by
  induction l with
  | nil => simp [setKey]
  | cons kv t ih =>
    obtain ⟨k1, w⟩ := kv
    simp only [List.map_cons, List.nodup_cons] at h
    by_cases hk : k1 = k
    · subst hk
      rw [show setKey ((k1, w) :: t) k1 v = (k1, v) :: t from by simp [setKey]]
      simp only [List.map_cons, List.nodup_cons]
      exact h
    · rw [show setKey ((k1, w) :: t) k v = (k1, w) :: setKey t k v from by
        simp [setKey, hk]]
      simp only [List.map_cons, List.nodup_cons]
      refine ⟨?_, ih h.2⟩
      intro hmem
      rcases mem_keys_setKey t k v k1 hmem with hl | hr
      · exact h.1 hl
      · exact hk hr

theorem foldl_setKey_keys_nodup (l : List (String × String)) :
    ∀ acc : List (String × String), (acc.map Prod.fst).Nodup →
      ((l.foldl (fun acc kv => setKey acc kv.1 kv.2) acc).map Prod.fst).Nodup := by
  induction l with
  | nil => intro acc h; exact h
  | cons kv t ih =>
    intro acc h
    simp only [List.foldl_cons]
    exact ih _ (keys_nodup_setKey acc kv.1 kv.2 h)

theorem foldl_setKey_head (l : List (String × String)) :
    ∀ (k0 v0 : String) (acc : List (String × String)),
      ∃ w rest, l.foldl (fun acc kv => setKey acc kv.1 kv.2) ((k0, v0) :: acc) =
        (k0, w) :: rest := by
  induction l with
  | nil => intro k0 v0 acc; exact ⟨v0, acc, rfl⟩
  | cons kv t ih =>
    intro k0 v0 acc
    obtain ⟨k, v⟩ := kv
    simp only [List.foldl_cons]
    by_cases hk : k0 = k
    · subst hk
      rw [show setKey ((k0, v0) :: acc) k0 v = (k0, v) :: acc from by simp [setKey]]
      exact ih k0 v acc
    · rw [show setKey ((k0, v0) :: acc) k v = (k0, v0) :: setKey acc k v from by
        simp [setKey, hk]]
      exact ih k0 v0 (setKey acc k v)

theorem foldl_setKey_append (t : List (String × String)) :
    ∀ pre : List (String × String),
      (∀ p ∈ t, ∀ q ∈ pre, p.1 ≠ q.1) → (t.map Prod.fst).Nodup →
      t.foldl (fun acc kv => setKey acc kv.1 kv.2) pre = pre ++ t := by
  induction t with
  | nil => intro pre _ _; simp
  | cons kv s ih =>
    intro pre hdisj hnd
    obtain ⟨k, v⟩ := kv
    simp only [List.map_cons, List.nodup_cons] at hnd
    simp only [List.foldl_cons]
    have hset : setKey pre k v = pre ++ [(k, v)] :=
      setKey_append_of_not_mem pre k v
        (fun q hq => fun he => (hdisj (k, v) (by simp) q hq) he.symm)
    have hdisj2 : ∀ p ∈ s, ∀ q ∈ pre ++ [(k, v)], p.1 ≠ q.1 := by
      intro p hp q hq
      rcases List.mem_append.mp hq with hq1 | hq2
      · exact hdisj p (by simp [hp]) q hq1
      · have hq' : q = (k, v) := List.mem_singleton.mp hq2
        subst hq'
        intro he
        have he' : p.1 = k := he
        exact hnd.1 (by rw [← he']; exact List.mem_map_of_mem Prod.fst hp)
    rw [hset, ih (pre ++ [(k, v)]) hdisj2 hnd.2]
    simp

theorem mergeLabels_head (uid : String) (l : List (String × String)) :
    ∃ w rest, mergeLabels uid l = (OpenStackLightspeedOwnerIDLabel, w) :: rest :=
  foldl_setKey_head l OpenStackLightspeedOwnerIDLabel uid []

theorem mergeLabels_keys_nodup (uid : String) (l : List (String × String)) :
    ((mergeLabels uid l).map Prod.fst).Nodup :=
  foldl_setKey_keys_nodup l [(OpenStackLightspeedOwnerIDLabel, uid)] (by simp)

/-- Merging the ownership label into an already-merged label map is the
identity: the merge keeps the ownership key at the head, and existing keys
win over the fresh ownership entry. -/
theorem mergeLabels_idem (uid : String) (l : List (String × String)) :
    mergeLabels uid (mergeLabels uid l) = mergeLabels uid l := by
  obtain ⟨w, rest, hM⟩ := mergeLabels_head uid l
  have hnd := mergeLabels_keys_nodup uid l
  rw [hM] at hnd ⊢
  simp only [List.map_cons, List.nodup_cons] at hnd
  show List.foldl (fun acc kv => setKey acc kv.1 kv.2)
    [(OpenStackLightspeedOwnerIDLabel, uid)]
    ((OpenStackLightspeedOwnerIDLabel, w) :: rest) = (OpenStackLightspeedOwnerIDLabel, w) :: rest
  simp only [List.foldl_cons]
  rw [show setKey [(OpenStackLightspeedOwnerIDLabel, uid)] OpenStackLightspeedOwnerIDLabel w =
    [(OpenStackLightspeedOwnerIDLabel, w)] from by simp [setKey]]
  have hdisj : ∀ p ∈ rest, ∀ q ∈ [(OpenStackLightspeedOwnerIDLabel, w)], p.1 ≠ q.1 := by
    intro p hp q hq
    have hq' : q = (OpenStackLightspeedOwnerIDLabel, w) := List.mem_singleton.mp hq
    subst hq'
    intro he
    have he' : p.1 = OpenStackLightspeedOwnerIDLabel := he
    exact hnd.1 (by rw [← he']; exact List.mem_map_of_mem Prod.fst hp)
  rw [foldl_setKey_append rest [(OpenStackLightspeedOwnerIDLabel, w)] hdisj hnd.2]
  rfl

/-! ## Claim C4 -/

/-- C4 amended: PatchOLSConfig is idempotent on its own successful output
when the instance's status condition list is initialized (non-nil):
re-applying the patch with identical inputs succeeds and returns the
identical object. -/
theorem patchOLSConfig_idem (fin : String) (inst : OpenStackLightspeed) (o o₁ : JVal)
    (h : PatchOLSConfig fin inst o = .ok o₁)
    (hcond : inst.statusConditionsNil = false) :
    PatchOLSConfig fin inst o₁ = .ok o₁ := by
  unfold PatchOLSConfig at h
  obtain ⟨a1, h1, h⟩ := exceptBind_ok _ _ _ h
  obtain ⟨a2, h2, h⟩ := exceptBind_ok _ _ _ h
  obtain ⟨a3, h3, h⟩ := exceptBind_ok _ _ _ h
  obtain ⟨a4, h4, h⟩ := exceptBind_ok _ _ _ h
  obtain ⟨a5, h5, h⟩ := exceptBind_ok _ _ _ h
  obtain ⟨a6, h6, h⟩ := exceptBind_ok _ _ _ h
  obtain ⟨a7, h7, h⟩ := exceptBind_ok _ _ _ h
  have h'' : (if !(AddFinalizer a7 fin).2 && inst.statusConditionsNil then
      (Except.error "cannot add finalizer" : Except String JVal)
    else Except.ok (AddFinalizer a7 fin).1) = Except.ok o₁ := h
  have ho1 : (AddFinalizer a7 fin).1 = o₁ := by
    rw [hcond] at h''
    simp at h''
    exact h''
  have hAF : AddFinalizer a7 fin = (o₁, (AddFinalizer a7 fin).2) := by
    rw [← ho1]
  have haf_idem : (AddFinalizer o₁ fin).1 = o₁ :=
    addFinalizer_fst_idem a7 o₁ fin (AddFinalizer a7 fin).2 hAF
  have hstep3 : ∀ p : List String,
      ¬ p <+: ["spec", "ols", "additionalCAConfigMapRef", "name"] →
      ¬ ["spec", "ols", "additionalCAConfigMapRef", "name"] <+: p →
      getNF p a3 = getNF p a2 := by
    intro p hp1 hp2
    by_cases hTLS : inst.tlsCACertBundle = ""
    · rw [if_neg (by simp [hTLS])] at h3
      have h3' : Except.ok (ε := String) a2 = .ok a3 := h3
      rw [← Except.ok.inj h3']
    · rw [if_pos hTLS] at h3
      exact getNF_setNF_other _ _ _ _ p h3 hp1 hp2
  have g1 : getNF ["spec", "llm", "providers"] o₁ = some (providersPatch inst) := by
    rw [← ho1,
      getNF_addFinalizer_other a7 fin ["spec", "llm", "providers"] (by decide) (by decide),
      getNF_setNF_other _ _ _ _ ["spec", "llm", "providers"] h7 (by decide) (by decide),
      getNF_setNF_other _ _ _ _ ["spec", "llm", "providers"] h6 (by decide) (by decide),
      getNF_setNF_other _ _ _ _ ["spec", "llm", "providers"] h5 (by decide) (by decide),
      getNF_setNF_other _ _ _ _ ["spec", "llm", "providers"] h4 (by decide) (by decide),
      hstep3 ["spec", "llm", "providers"] (by decide) (by decide),
      getNF_setNF_other _ _ _ _ ["spec", "llm", "providers"] h2 (by decide) (by decide)]
    exact getNF_setNF_self _ _ _ _ h1
  have g2 : getNF ["spec", "ols", "rag"] o₁ = some (openstackRAG inst) := by
    rw [← ho1,
      getNF_addFinalizer_other a7 fin ["spec", "ols", "rag"] (by decide) (by decide),
      getNF_setNF_other _ _ _ _ ["spec", "ols", "rag"] h7 (by decide) (by decide),
      getNF_setNF_other _ _ _ _ ["spec", "ols", "rag"] h6 (by decide) (by decide),
      getNF_setNF_other _ _ _ _ ["spec", "ols", "rag"] h5 (by decide) (by decide),
      getNF_setNF_other _ _ _ _ ["spec", "ols", "rag"] h4 (by decide) (by decide),
      hstep3 ["spec", "ols", "rag"] (by decide) (by decide)]
    exact getNF_setNF_self _ _ _ _ h2
  have g4 : getNF ["spec", "ols", "defaultModel"] o₁ = some (.str inst.modelName) := by
    rw [← ho1,
      getNF_addFinalizer_other a7 fin ["spec", "ols", "defaultModel"] (by decide) (by decide),
      getNF_setNF_other _ _ _ _ ["spec", "ols", "defaultModel"] h7 (by decide) (by decide),
      getNF_setNF_other _ _ _ _ ["spec", "ols", "defaultModel"] h6 (by decide) (by decide),
      getNF_setNF_other _ _ _ _ ["spec", "ols", "defaultModel"] h5 (by decide) (by decide)]
    exact getNF_setNF_self _ _ _ _ h4
  have g5 : getNF ["spec", "ols", "defaultProvider"] o₁ =
      some (.str OpenStackLightspeedDefaultProvider) := by
    rw [← ho1,
      getNF_addFinalizer_other a7 fin ["spec", "ols", "defaultProvider"] (by decide) (by decide),
      getNF_setNF_other _ _ _ _ ["spec", "ols", "defaultProvider"] h7 (by decide) (by decide),
      getNF_setNF_other _ _ _ _ ["spec", "ols", "defaultProvider"] h6 (by decide) (by decide)]
    exact getNF_setNF_self _ _ _ _ h5
  have g6 : getNF ["spec", "ols", "byokRAGOnly"] o₁ = some (.bool true) := by
    rw [← ho1,
      getNF_addFinalizer_other a7 fin ["spec", "ols", "byokRAGOnly"] (by decide) (by decide),
      getNF_setNF_other _ _ _ _ ["spec", "ols", "byokRAGOnly"] h7 (by decide) (by decide)]
    exact getNF_setNF_self _ _ _ _ h6
  have g7 : getNF ["metadata", "labels"] o₁ =
      some (labelsToJVal (mergeLabels inst.uid (GetLabels a6))) := by
    rw [← ho1,
      getNF_addFinalizer_other a7 fin ["metadata", "labels"] (by decide) (by decide)]
    exact getNF_setNF_self _ _ _ _ h7
  have hGL : GetLabels o₁ = mergeLabels inst.uid (GetLabels a6) :=
    getLabels_of_getNF o₁ _ g7
  have s1 : setNF ["spec", "llm", "providers"] o₁ (providersPatch inst) = .ok o₁ :=
    setNF_of_getNF _ _ _ (by simp) g1
  have s2 : setNF ["spec", "ols", "rag"] o₁ (openstackRAG inst) = .ok o₁ :=
    setNF_of_getNF _ _ _ (by simp) g2
  have s3' : (if inst.tlsCACertBundle ≠ "" then
      setNF ["spec", "ols", "additionalCAConfigMapRef", "name"] o₁
        (.str inst.tlsCACertBundle)
    else pure o₁) = .ok o₁ := by
    by_cases hTLS : inst.tlsCACertBundle = ""
    · rw [if_neg (by simp [hTLS])]
      rfl
    · rw [if_pos hTLS]
      have h3' : setNF ["spec", "ols", "additionalCAConfigMapRef", "name"] a2
          (.str inst.tlsCACertBundle) = .ok a3 := by
        rw [if_pos hTLS] at h3
        exact h3
      have g3 : getNF ["spec", "ols", "additionalCAConfigMapRef", "name"] o₁ =
          some (.str inst.tlsCACertBundle) := by
        rw [← ho1,
          getNF_addFinalizer_other a7 fin ["spec", "ols", "additionalCAConfigMapRef", "name"]
            (by decide) (by decide),
          getNF_setNF_other _ _ _ _ ["spec", "ols", "additionalCAConfigMapRef", "name"] h7
            (by decide) (by decide),
          getNF_setNF_other _ _ _ _ ["spec", "ols", "additionalCAConfigMapRef", "name"] h6
            (by decide) (by decide),
          getNF_setNF_other _ _ _ _ ["spec", "ols", "additionalCAConfigMapRef", "name"] h5
            (by decide) (by decide),
          getNF_setNF_other _ _ _ _ ["spec", "ols", "additionalCAConfigMapRef", "name"] h4
            (by decide) (by decide)]
        exact getNF_setNF_self _ _ _ _ h3'
      exact setNF_of_getNF _ _ _ (by simp) g3
  have s4 : setNF ["spec", "ols", "defaultModel"] o₁ (.str inst.modelName) = .ok o₁ :=
    setNF_of_getNF _ _ _ (by simp) g4
  have s5 : setNF ["spec", "ols", "defaultProvider"] o₁
      (.str OpenStackLightspeedDefaultProvider) = .ok o₁ :=
    setNF_of_getNF _ _ _ (by simp) g5
  have s6 : setNF ["spec", "ols", "byokRAGOnly"] o₁ (.bool true) = .ok o₁ :=
    setNF_of_getNF _ _ _ (by simp) g6
  have s7 : setNF ["metadata", "labels"] o₁
      (labelsToJVal (mergeLabels inst.uid (GetLabels o₁))) = .ok o₁ := by
    rw [hGL, mergeLabels_idem]
    rw [← hGL]
    exact setNF_of_getNF _ _ _ (by simp) (hGL ▸ g7)
  unfold PatchOLSConfig
  simp only [s1, exceptOk_bind, s2, s3', s4, s5, s6, s7]
  simp [hcond, haf_idem]

/-- A fresh OLSConfig and two instances differing only in whether the
status condition list is nil, for the C4 witness and counterexample. -/
def C4obj : JVal := .obj [("metadata", .obj [("name", .str OLSConfigName)])]

def C4inst : OpenStackLightspeed :=
  ⟨"uid-c4-0001", "osl", "http://llm.example", "openai", "llm-secret", "model-a",
    512, "quay.io/rag:1", "", "catalog", "openshift-marketplace", true⟩

def C4winst : OpenStackLightspeed :=
  ⟨"uid-c4-0001", "osl", "http://llm.example", "openai", "llm-secret", "model-a",
    512, "quay.io/rag:1", "", "catalog", "openshift-marketplace", false⟩

/-- The result of one application of PatchOLSConfig to C4obj. -/
def C4obj1 : JVal :=
  .obj [("metadata", .obj [("name", .str "cluster"),
          ("labels", .obj [("openstack.org/lightspeed-owner-id", .str "uid-c4-0001")]),
          ("finalizers", .arr [.str "openstacklightspeed"])]),
        ("spec", .obj [
          ("llm", .obj [("providers", .arr [.obj [
            ("credentialsSecretRef", .obj [("name", .str "llm-secret")]),
            ("models", .arr [.obj [("name", .str "model-a"),
              ("parameters", .obj [("maxTokensForResponse", .num 512)])]]),
            ("name", .str "openstack-lightspeed-provider"),
            ("type", .str "openai"),
            ("url", .str "http://llm.example")]])]),
          ("ols", .obj [
            ("rag", .arr [.obj [("image", .str "quay.io/rag:1"),
              ("indexPath", .str "/rag/vector_db/os_product_docs")]]),
            ("defaultModel", .str "model-a"),
            ("defaultProvider", .str "openstack-lightspeed-provider"),
            ("byokRAGOnly", .bool true)])])]

/-- C4 witness: a concrete first application succeeds, and the theorem
yields that the second application returns the identical object. -/
theorem patchOLSConfig_idem_witness :
    PatchOLSConfig "openstacklightspeed" C4winst C4obj1 = .ok C4obj1 :=
  patchOLSConfig_idem "openstacklightspeed" C4winst C4obj C4obj1 rfl rfl

/-- C4 counterexample: for an instance whose status condition list is nil,
the first application succeeds but the second application returns the
"cannot add finalizer" error (AddFinalizer reports nothing to add, and the
nil-conditions check turns that into an error), so the patch is not
unconditionally idempotent as claimed. -/
theorem patchOLSConfig_counterexample :
    PatchOLSConfig "openstacklightspeed" C4inst C4obj = .ok C4obj1 ∧
    PatchOLSConfig "openstacklightspeed" C4inst C4obj1 = .error "cannot add finalizer" := by
  constructor
  · rfl
  · rfl

/-! ## Operator lifecycle objects and installer (ols_install.go)

Subscriptions, install plans and CSVs are modelled with the fields the
code inspects; owner references are reduced to their UIDs.  The
OPENSHIFT_LIGHTSPEED_OPERATOR_VERSION environment variable is a field of
the cluster state.  `csvDeleteImmediate` is an environment oracle: whether
a CSV delete issued in this pass is already visible to the immediately
following list call (real deletions are asynchronous). -/

structure CSVObj where
  name : String
  ownerUIDs : List String
  phase : String
  version : String
deriving DecidableEq

structure SubscriptionSpecObj where
  channel : String
  installPlanApproval : String
  catalogSource : String
  catalogSourceNamespace : String
  package : String
  startingCSV : String
deriving DecidableEq

structure SubscriptionObj where
  name : String
  ns : String
  ownerUIDs : List String
  spec : Option SubscriptionSpecObj
  hasInstallPlanRef : Bool
deriving DecidableEq

structure InstallPlanObj where
  ns : String
  csvNames : List String
  approved : Bool
deriving DecidableEq

structure OperatorCluster where
  csvs : List CSVObj
  subs : List SubscriptionObj
  installPlans : List InstallPlanObj
  envOLSVersion : String
  csvDeleteImmediate : Bool
deriving DecidableEq

def strHasPrefix (s pre : String) : Bool := pre.toList.isPrefixOf s.toList

def strHasSuffix (s suf : String) : Bool := suf.toList.isSuffixOf s.toList

/-- IsOwnedBy, reduced to owner-reference UIDs. -/
def IsOwnedByU (ownerUIDs : List String) (inst : OpenStackLightspeed) : Bool :=
  ownerUIDs.contains inst.uid

/-- GetOLSOperatorCSV: the first CSV cluster-wide whose name starts with
the operator name; none when there is no such CSV. -/
def GetOLSOperatorCSV (c : OperatorCluster) : Option CSVObj :=
  c.csvs.find? (fun csv => strHasPrefix csv.name OLSOperatorName)

/-- GetRecommendedOLSVersion: the environment value, with unset/empty an
error and the "latest" sentinel mapped to the empty (unpinned) version. -/
def GetRecommendedOLSVersion (version : String) : Except String String :=
  if version = "" then
    .error "environment variable OPENSHIFT_LIGHTSPEED_OPERATOR_VERSION is not set"
  else if version = "latest" then .ok ""
  else .ok version

/-- The subscription spec written by InstallInstanceOwnedOLSOperator's
mutate, including SetStartingCSV (unset when the recommended version is
empty). -/
def desiredSubscriptionSpec (inst : OpenStackLightspeed) (recommended : String) :
    SubscriptionSpecObj :=
  { channel := "stable", installPlanApproval := "Manual",
    catalogSource := inst.catalogSourceName,
    catalogSourceNamespace := inst.catalogSourceNamespace,
    package := OLSOperatorName,
    startingCSV := if recommended ≠ "" then OLSOperatorName ++ ".v" ++ recommended else "" }

/-- The zero Subscription left when the Get comes back not-found. -/
def zeroSubscription : SubscriptionObj :=
  { name := "", ns := "", ownerUIDs := [], spec := none, hasInstallPlanRef := false }

/-- IsUserInstalledOLSOperatorMode: true iff an operator CSV exists and
neither it nor the instance's subscription is owned by the instance. -/
def IsUserInstalledOLSOperatorMode (inst : OpenStackLightspeed) (c : OperatorCluster) :
    Except String Bool :=
  match GetOLSOperatorCSV c with
  | none => .ok false
  | some csv =>
    match GetOLSSubscriptionName inst with
    | none => .error "panic: runtime error: slice bounds out of range"
    | some subName =>
      let sub := (c.subs.find? (fun s => s.name == subName && s.ns == inst.ns)).getD
        zeroSubscription
      .ok (!(IsOwnedByU csv.ownerUIDs inst) && !(IsOwnedByU sub.ownerUIDs inst))

/-- The scan of ApproveOLSOperatorInstallPlan over the namespace's install
plans: approve the first plan whose first CSV name has the operator prefix
and the recommended-version suffix. -/
def approveLoop (inst : OpenStackLightspeed) (recommended : String) :
    List InstallPlanObj → Option (List InstallPlanObj)
  | [] => none
  | ip :: rest =>
    if ip.ns == inst.ns then
      match ip.csvNames with
      | [] => (approveLoop inst recommended rest).map (ip :: ·)
      | n0 :: _ =>
        if strHasPrefix n0 OLSOperatorName && strHasSuffix n0 recommended then
          some ({ ip with approved := true } :: rest)
        else (approveLoop inst recommended rest).map (ip :: ·)
    else (approveLoop inst recommended rest).map (ip :: ·)

def ApproveOLSOperatorInstallPlan (inst : OpenStackLightspeed) (c : OperatorCluster) :
    OperatorCluster × Except String Bool :=
  match GetRecommendedOLSVersion c.envOLSVersion with
  | .error e => (c, .error e)
  | .ok recommended =>
    match approveLoop inst recommended c.installPlans with
    | some plans => ({ c with installPlans := plans }, .ok true)
    | none => (c, .ok false)

/-- InstanceOwnedOLSOperatorComplete: the CSV is owned by the instance and
in the Succeeded phase. -/
def InstanceOwnedOLSOperatorComplete (inst : OpenStackLightspeed) (c : OperatorCluster) :
    Bool × Option String :=
  match GetOLSOperatorCSV c with
  | none => (false, none)
  | some csv => (IsOwnedByU csv.ownerUIDs inst && csv.phase == "Succeeded", none)

def updateSub (subs : List SubscriptionObj) (s : SubscriptionObj) : List SubscriptionObj :=
  subs.map (fun x => if x.name == s.name && x.ns == s.ns then s else x)

def updateCSV (csvs : List CSVObj) (v : CSVObj) : List CSVObj :=
  csvs.map (fun x => if x.name == v.name then v else x)

/-- InstallInstanceOwnedOLSOperator: upsert the subscription (waiting when
it was just created/updated or has no install-plan ref yet), approve the
matching install plan, take ownership of the CSV, and report completion. -/
def InstallInstanceOwnedOLSOperator (inst : OpenStackLightspeed) (c : OperatorCluster) :
    OperatorCluster × (Bool × Option String) :=
  match GetOLSSubscriptionName inst with
  | none => (c, (false, some "panic: runtime error: slice bounds out of range"))
  | some subName =>
    match GetRecommendedOLSVersion c.envOLSVersion with
    | .error e => (c, (false, some e))
    | .ok recommended =>
      let dspec := desiredSubscriptionSpec inst recommended
      match c.subs.find? (fun s => s.name == subName && s.ns == inst.ns) with
      | none =>
        let newSub : SubscriptionObj :=
          { name := subName, ns := inst.ns, ownerUIDs := [inst.uid],
            spec := some dspec, hasInstallPlanRef := false }
        ({ c with subs := c.subs ++ [newSub] }, (false, none))
      | some old =>
        let newSub : SubscriptionObj := { old with spec := some dspec, ownerUIDs := [inst.uid] }
        if newSub = old then
          if !old.hasInstallPlanRef then (c, (false, none))
          else
            match ApproveOLSOperatorInstallPlan inst c with
            | (c2, .error e) => (c2, (false, some e))
            | (c2, .ok false) => (c2, (false, none))
            | (c2, .ok true) =>
              match GetOLSOperatorCSV c2 with
              | none => (c2, (false, none))
              | some csv =>
                let c3 := { c2 with
                  csvs := updateCSV c2.csvs { csv with ownerUIDs := [inst.uid] } }
                (c3, InstanceOwnedOLSOperatorComplete inst c3)
        else ({ c with subs := updateSub c.subs newSub }, (false, none))

/-- The user-installed failure message of EnsureOLSOperatorInstalled. -/
def userInstalledErrMsg : String :=
  "detected an existing OpenShift Lightspeed operator installation. " ++
  "Please uninstall OpenShift Lightspeed operator and allow the " ++
  "OpenStack Lightspeed operator to manage its installation automatically"

/-- EnsureOLSOperatorInstalled: classify the mode; user-installed is a
hard error; otherwise drive the instance-owned installation. -/
def EnsureOLSOperatorInstalled (inst : OpenStackLightspeed) (c : OperatorCluster) :
    OperatorCluster × (Bool × Option String) :=
  match IsUserInstalledOLSOperatorMode inst c with
  | .error e => (c, (false, some e))
  | .ok true => (c, (false, some userInstalledErrMsg))
  | .ok false => InstallInstanceOwnedOLSOperator inst c

/-- The client Delete of a CSV; visibility of the deletion to the
immediately following read is governed by the oracle. -/
def deleteCSVByName (c : OperatorCluster) (nm : String) : OperatorCluster :=
  if c.csvDeleteImmediate then
    { c with csvs := c.csvs.filter (fun x => x.name != nm) }
  else c

/-- UninstallInstanceOwnedOLSOperator: nothing to do when no CSV exists or
it is not ours; otherwise delete it and report completion only when the
re-read no longer finds one. -/
def UninstallInstanceOwnedOLSOperator (inst : OpenStackLightspeed) (c : OperatorCluster) :
    OperatorCluster × (Bool × Option String) :=
  match GetOLSOperatorCSV c with
  | none => (c, (true, none))
  | some csv =>
    if !(IsOwnedByU csv.ownerUIDs inst) then (c, (true, none))
    else
      let c1 := deleteCSVByName c csv.name
      match GetOLSOperatorCSV c1 with
      | none => (c1, (true, none))
      | some _ => (c1, (false, none))

/-! ## Claim C5 -/

/-- C5: when a CSV with the operator package-name prefix exists and is
owned neither by the instance nor by the instance's subscription,
EnsureOLSOperatorInstalled fails with the explicit user-installed error
and the cluster state is unchanged — no install, adoption or coexistence
step runs.  (The instance UID must be long enough for the subscription
name; shorter UIDs panic in GetOLSSubscriptionName.) -/
theorem ensureOLSOperatorInstalled_userInstalled (inst : OpenStackLightspeed)
    (c : OperatorCluster) (csv : CSVObj) (subName : String)
    (hname : GetOLSSubscriptionName inst = some subName)
    (hcsv : GetOLSOperatorCSV c = some csv)
    (hcown : IsOwnedByU csv.ownerUIDs inst = false)
    (hsown : ∀ s, c.subs.find? (fun s => s.name == subName && s.ns == inst.ns) = some s →
      IsOwnedByU s.ownerUIDs inst = false) :
    EnsureOLSOperatorInstalled inst c = (c, (false, some userInstalledErrMsg)) := by
  have hmode : IsUserInstalledOLSOperatorMode inst c = .ok true := by
    unfold IsUserInstalledOLSOperatorMode
    rw [hcsv, hname]
    cases hfind : c.subs.find? (fun s => s.name == subName && s.ns == inst.ns) with
    | none =>
      have hc' : inst.uid ∉ csv.ownerUIDs := by
        intro hm
        rw [show IsOwnedByU csv.ownerUIDs inst = true from by
          simp [IsOwnedByU, List.contains, List.elem_eq_mem, hm]] at hcown
        exact Bool.noConfusion hcown
      simp [hfind, zeroSubscription, IsOwnedByU, hc']
    | some s =>
      simp [hfind, hcown, hsown s hfind]
  unfold EnsureOLSOperatorInstalled
  rw [hmode]

/-- A concrete user-installed cluster for the C5 witness. -/
def C5inst : OpenStackLightspeed :=
  ⟨"uid-c5-0001", "osl", "http://llm.example", "openai", "llm-secret", "model-a",
    512, "quay.io/rag:1", "", "catalog", "openshift-marketplace", false⟩

def C5cluster : OperatorCluster :=
  { csvs := [⟨"lightspeed-operator.v1.0.0", [], "Succeeded", "1.0.0"⟩],
    subs := [], installPlans := [], envOLSVersion := "1.0.0", csvDeleteImmediate := true }

/-- C5 witness: a pre-existing unowned operator CSV makes the ensure step
fail with the user-installed error, leaving the cluster untouched. -/
theorem ensureOLSOperatorInstalled_userInstalled_witness :
    EnsureOLSOperatorInstalled C5inst C5cluster =
      (C5cluster, (false, some userInstalledErrMsg)) := by
  refine ensureOLSOperatorInstalled_userInstalled C5inst C5cluster
    ⟨"lightspeed-operator.v1.0.0", [], "Succeeded", "1.0.0"⟩
    ("lightspeed-operator-uid-c") rfl rfl rfl ?_
  intro s hs
  simp [C5cluster] at hs

/-! ## reconcileDelete (ols_install.go) -/

/-- The reconcile result: requeue delay in seconds (0 for none) and the
returned error. -/
structure RResult where
  requeueAfterSeconds : Nat
  err : Option String
deriving DecidableEq

/-- The world touched by the deletion branch: the OLSConfig slot, the
operator objects, and the instance's own finalizer list. -/
structure World where
  ols : OLSSlot
  op : OperatorCluster
  instFinalizers : List String

/-- reconcileDelete: remove the downstream singleton; on error stop, when
incomplete requeue after 10s; only then uninstall the operator with the
same discipline; only after both report completion remove the instance's
finalizer. -/
def reconcileDelete (fin : String) (inst : OpenStackLightspeed) (w : World) :
    World × RResult :=
  let r1 := RemoveOLSConfig fin inst w.ols
  let w1 : World := { w with ols := r1.1 }
  match r1.2 with
  | (_, some e) => (w1, ⟨0, some e⟩)
  | (false, none) => (w1, ⟨10, none⟩)
  | (true, none) =>
    let r2 := UninstallInstanceOwnedOLSOperator inst w1.op
    let w2 : World := { w1 with op := r2.1 }
    match r2.2 with
    | (_, some e) => (w2, ⟨0, some e⟩)
    | (false, none) => (w2, ⟨10, none⟩)
    | (true, none) =>
      ({ w2 with instFinalizers := w2.instFinalizers.filter (fun f => f != fin) }, ⟨0, none⟩)

/-! ## Claim C6 -/

/-- C6: in the deletion branch, operator uninstallation runs only after
singleton removal reports completion (an error or incompleteness of the
removal leaves the operator state and the instance finalizers untouched,
with a 10-second requeue in the incomplete case), the local finalizer is
removed only after both steps report completion, and an incomplete
uninstall also requeues after 10 seconds without touching the
finalizers. -/
theorem reconcileDelete_spec (fin : String) (inst : OpenStackLightspeed) (w : World) :
    (∀ e, (RemoveOLSConfig fin inst w.ols).2.2 = some e →
      reconcileDelete fin inst w =
        ({ w with ols := (RemoveOLSConfig fin inst w.ols).1 }, ⟨0, some e⟩)) ∧
    ((RemoveOLSConfig fin inst w.ols).2 = (false, none) →
      reconcileDelete fin inst w =
        ({ w with ols := (RemoveOLSConfig fin inst w.ols).1 }, ⟨10, none⟩)) ∧
    ((RemoveOLSConfig fin inst w.ols).2 = (true, none) →
      ∀ e, (UninstallInstanceOwnedOLSOperator inst w.op).2.2 = some e →
      reconcileDelete fin inst w =
        ({ w with
            ols := (RemoveOLSConfig fin inst w.ols).1
            op := (UninstallInstanceOwnedOLSOperator inst w.op).1 }, ⟨0, some e⟩)) ∧
    ((RemoveOLSConfig fin inst w.ols).2 = (true, none) →
      (UninstallInstanceOwnedOLSOperator inst w.op).2 = (false, none) →
      reconcileDelete fin inst w =
        ({ w with
            ols := (RemoveOLSConfig fin inst w.ols).1
            op := (UninstallInstanceOwnedOLSOperator inst w.op).1 }, ⟨10, none⟩)) ∧
    ((RemoveOLSConfig fin inst w.ols).2 = (true, none) →
      (UninstallInstanceOwnedOLSOperator inst w.op).2 = (true, none) →
      reconcileDelete fin inst w =
        ({ w with
            ols := (RemoveOLSConfig fin inst w.ols).1
            op := (UninstallInstanceOwnedOLSOperator inst w.op).1
            instFinalizers := w.instFinalizers.filter (fun f => f != fin) }, ⟨0, none⟩)) := by
  refine ⟨?_, ?_, ?_, ?_, ?_⟩
  · intro e he
    rcases hp : (RemoveOLSConfig fin inst w.ols).2 with ⟨b1, e1⟩
    have he1 : e1 = some e := by rw [hp] at he; exact he
    subst he1
    simp [reconcileDelete, hp]
  · intro h
    simp [reconcileDelete, h]
  · intro h e he
    rcases hp : (UninstallInstanceOwnedOLSOperator inst w.op).2 with ⟨b2, e2⟩
    have he2 : e2 = some e := by rw [hp] at he; exact he
    subst he2
    simp [reconcileDelete, h, hp]
  · intro h h2
    simp [reconcileDelete, h, h2]
  · intro h h2
    simp [reconcileDelete, h, h2]

/-- A concrete deleting world for the C6 witness: the singleton is already
gone, and the operator CSV is owned by the instance but its deletion is
not yet visible, so the pass requeues after 10 seconds with the instance
finalizer intact. -/
def C6inst : OpenStackLightspeed :=
  ⟨"uid-c6-0001", "osl", "http://llm.example", "openai", "llm-secret", "model-a",
    512, "quay.io/rag:1", "", "catalog", "openshift-marketplace", false⟩

def C6op : OperatorCluster :=
  { csvs := [⟨"lightspeed-operator.v1.0.0", ["uid-c6-0001"], "Succeeded", "1.0.0"⟩],
    subs := [], installPlans := [], envOLSVersion := "1.0.0", csvDeleteImmediate := false }

def C6world : World :=
  { ols := ⟨none, 0⟩, op := C6op, instFinalizers := ["openstacklightspeed"] }

/-- C6 witness: singleton removal complete, uninstall incomplete — the
pass requeues after 10 seconds and the instance finalizer stays. -/
theorem reconcileDelete_spec_witness :
    reconcileDelete "openstacklightspeed" C6inst C6world =
      ({ C6world with
          ols := (RemoveOLSConfig "openstacklightspeed" C6inst C6world.ols).1
          op := (UninstallInstanceOwnedOLSOperator C6inst C6world.op).1 },
        ⟨10, none⟩) :=
  (reconcileDelete_spec "openstacklightspeed" C6inst C6world).2.2.2.1 rfl rfl

end OLS
